import Mathlib

/-!
# nessDB sorted-string-table layer (`src/engine/sst.c`)

A shallow embedding of the SST engine and theorems about it.

Conventions of the embedding

* A byte is a `Nat` below 256; a buffer is a `List Nat`.
* A `skipnode` carries the `klen` bytes of its key; the rest of the node's key
  buffer is zero, so the C string held by the node is the part of `key` before
  its first zero byte.
* A block is a `struct inner_block`: `max_len` key bytes and a four byte
  offset field that is aligned to four, so that it starts `align4 max_len`
  bytes into the block and a block takes `align4 max_len + 4` bytes. The
  block area of a file is the `mmap_size = (max_len + 4) * real_count` bytes
  that `_prepare_stats` computes; the two agree when `max_len` is a multiple of
  four.
* A mapping covers whole pages of `PAGE_SIZE` bytes. A store through the
  mapping past the block area does not reach the file; a load past the block
  area sees the footer and then zero bytes up to the end of the last page. An
  access past the mapped pages has no defined result (`none`): it ends the
  process.
* The bytes of the footer that the writer never assigns (padding and
  `offset_delta`) are indeterminate; a load of one of them has no defined
  result. Four byte integers are aligned to four and eight byte integers to
  eight.
* File names and keys are assumed to fit their fixed-width buffers
  (`FILE_NAME_SIZE`, `NESSDB_MAX_KEY_SIZE`); a file name is a `String`.
* `__PANIC` ends the process (`exit(1)`): a function that can reach it returns
  an `Option`, and `none` stands for that end (or for a walk past the end of
  the record list, which the callers never ask for).
* Sizes and counts are natural numbers; the constants of `config.h`, which is
  not among the sources, are the fields of `config`.
-/

namespace NessDB

/-- The constants of `config.h` used by `sst.c`. -/
structure config where
  SST_MAX_COUNT : Nat
  NESSDB_MAX_KEY_SIZE : Nat

/-- The crc sentinel `F_CRC` (2011 = 0x7DB). -/
def F_CRC : Nat := 2011

/-- The operation of a record (`OPT` of the skiplist header). -/
inductive OPT where
  | ADD
  | DEL
deriving DecidableEq, Repr

/-- One node of the in-memory ordered list: `key` holds the `klen` key bytes. -/
structure skipnode where
  key : List Nat
  val : Nat
  opt : OPT
deriving DecidableEq, Repr

/-- The field `klen` of a node. -/
def skipnode.klen (n : skipnode) : Nat := n.key.length

/-! ## Encoding primitives and memory -/

/-- The four bytes of `to_be32 v`, most significant first (`v` is cut to 32 bits). -/
def to_be32 (v : Nat) : List Nat :=
  [v / 2 ^ 24 % 256, v / 2 ^ 16 % 256, v / 2 ^ 8 % 256, v % 256]

/-- Big-endian decoding of a byte string. -/
def from_big (b : List Nat) : Nat := b.foldl (fun acc x => acc * 256 + x) 0

/-- The value of four big-endian bytes (`from_be32`). -/
def from_be32 (b : List Nat) : Nat := from_big (b.take 4)

/-- The value of two big-endian bytes (`u16_from_big`). -/
def u16_from_big (b : List Nat) : Nat := from_big (b.take 2)

/-- The value of eight big-endian bytes (`u64_from_big`). -/
def u64_from_big (b : List Nat) : Nat := from_big (b.take 8)

/-- The least multiple of four that is at least `n`: where a four byte field
that follows `n` bytes of a struct starts. -/
def align4 (n : Nat) : Nat := (n + 3) / 4 * 4

/-- The least multiple of eight that is at least `n`. -/
def align8 (n : Nat) : Nat := (n + 7) / 8 * 8

/-- The page size of the platform. -/
def PAGE_SIZE : Nat := 4096

/-- The length of the pages that `mmap` maps for a request of `n` bytes. -/
def page_round (n : Nat) : Nat := (n + (PAGE_SIZE - 1)) / PAGE_SIZE * PAGE_SIZE

/-- A zeroed buffer of `n` bytes that then receives `s` (`memset` then `memcpy`). -/
def zero_pad (n : Nat) (s : List Nat) : List Nat :=
  (s ++ List.replicate (n - s.length) 0).take n

/-- Store `bytes` at offset `off` of the mapped area `buf`. A store that runs
past the end of the area does not reach the file. -/
def poke : List Nat → Nat → List Nat → List Nat
  | [], _, _ => []
  | b :: buf, 0, [] => b :: buf
  | _ :: buf, 0, x :: xs => x :: poke buf 0 xs
  | b :: buf, off + 1, xs => b :: poke buf off xs

/-- The C string in a buffer: the bytes before the first zero byte. -/
def cstr (s : List Nat) : List Nat := s.takeWhile (fun b => b != 0)

/-- The function `strcmp` on two buffers (−1, 0 or 1); a buffer that ends is
followed by its terminating zero byte. -/
def strcmp : List Nat → List Nat → Int
  | [], [] => 0
  | [], b :: _ => if b = 0 then 0 else -1
  | a :: _, [] => if a = 0 then 0 else 1
  | a :: as, b :: bs =>
    if a = b then (if a = 0 then 0 else strcmp as bs)
    else if a < b then -1 else 1

/-! ## Files and the meta directory -/

/-- The footer of an SST file; the integer fields are the big-endian bytes
written (`offset_delta` is never assigned by the writer and is left out). -/
structure footer where
  key : List Nat
  count : List Nat
  crc : List Nat
  size : List Nat
  max_len : List Nat
  max_lcp : List Nat
deriving DecidableEq, Repr

/-- An SST file: the block area followed by the footer. -/
structure sst_file where
  blocks : List Nat
  footer : footer
deriving DecidableEq, Repr

/-- The bytes of `struct footer` as `write(fd, &footer, fsize)` puts them in
the file: the key buffer, the five integer fields from the next multiple of
four on, and `offset_delta` at the next multiple of eight. The writer assigns
neither the padding nor `offset_delta`: those bytes are indeterminate (`none`). -/
def footer_bytes (ft : footer) : List (Option Nat) :=
  let fields := ft.count ++ ft.crc ++ ft.size ++ ft.max_len ++ ft.max_lcp
  let used := align4 ft.key.length + fields.length
  ft.key.map some ++ List.replicate (align4 ft.key.length - ft.key.length) none
    ++ fields.map some ++ List.replicate (align8 used + 8 - used) none

/-- Byte `i` of the pages that `mmap(0, blk_sizes, ..., fd, 0)` maps of the
file `f`: a byte of the block area, then of the footer, then zero up to the end
of the last page that holds a byte of the file. `none` past the mapped pages,
in a page past the end of the file, and for an indeterminate byte. -/
def mapped_byte (f : sst_file) (blk_sizes i : Nat) : Option Nat :=
  if i < page_round blk_sizes
      ∧ i < page_round (f.blocks.length + (footer_bytes f.footer).length) then
    if i < f.blocks.length then f.blocks[i]?
    else
      match (footer_bytes f.footer)[i - f.blocks.length]? with
      | some b => b
      | none => some 0
  else none

/-- The `n` bytes at offset `off` of the mapping. -/
def mapped_read (f : sst_file) (blk_sizes : Nat) : Nat → Nat → Option (List Nat)
  | _, 0 => some []
  | off, n + 1 =>
    match mapped_byte f blk_sizes off, mapped_read f blk_sizes (off + 1) n with
    | some b, some bs => some (b :: bs)
    | _, _ => none

/-- Whether `memcmp(data, mmaps + cur, n)` is 0: the bytes are compared in
order up to the first difference; `none` when the comparison would read past
`data` or has no byte to read in the mapping. -/
def memcmp (f : sst_file) (blk_sizes : Nat) : List Nat → Nat → Nat → Option Bool
  | _, _, 0 => some true
  | a :: as, cur, n + 1 =>
    match mapped_byte f blk_sizes cur with
    | some b => if a = b then memcmp f blk_sizes as (cur + 1) n else some false
    | none => none
  | [], _, _ + 1 => none

/-- A meta descriptor (`struct meta_node`; its field `end` is `end_key` here). -/
structure meta_node where
  index_name : String
  end_key : List Nat
  count : Nat
  lsn : Int
deriving DecidableEq, Repr

/-- The meta directory (`struct meta`): its descriptors; `size` is their number. -/
structure meta where
  nodes : List meta_node
deriving DecidableEq, Repr

/-- The field `size` of the meta directory. -/
def meta.size (m : meta) : Nat := m.nodes.length

/-- Modelled from the spec: `meta_new` of meta.c, which is not among the
sources; the empty directory. -/
def meta_new : meta := ⟨[]⟩

/-- The better of a candidate found so far and a descriptor `n` covering the key. -/
def meta_pick (best : Option meta_node) (n : meta_node) : Option meta_node :=
  match best with
  | none => some n
  | some b => if strcmp n.end_key b.end_key < 0 then some n else some b

/-- Modelled from the spec: `meta_get` of meta.c, which is not among the
sources (spec 4.3): the descriptor whose `end_key` is the smallest
`end_key ≥ key`, none when `key` exceeds every `end_key`. -/
def meta_get (m : meta) (key : List Nat) : Option meta_node :=
  m.nodes.foldl
    (fun best n => if strcmp key n.end_key ≤ 0 then meta_pick best n else best) none

/-- Modelled from the spec: `meta_set` of meta.c, which is not among the
sources (spec 4.3): inserts a new descriptor and gives it a fresh, increasing
`lsn` (the number of descriptors inserted before it). -/
def meta_set (m : meta) (node : meta_node) : meta :=
  ⟨m.nodes ++ [{ node with lsn := (m.size : Int) }]⟩

/-- Modelled from the spec: `meta_set_byname` of meta.c, which is not among the
sources (spec 4.3): updates the descriptor whose `index_name` is that of
`node`, keeping its `lsn`. -/
def meta_set_byname (m : meta) (node : meta_node) : meta :=
  ⟨m.nodes.map (fun d =>
    if d.index_name = node.index_name then
      { d with end_key := node.end_key, count := node.count }
    else d)⟩

/-- The engine (`struct sst`) together with the files under `basedir`. -/
structure sst where
  name : String
  meta : meta
  mutexer_lsn : Int
  bloom : List (List Nat)
  disk : List (String × sst_file)
deriving DecidableEq, Repr

/-- The file `name` under `basedir`, if there is one (`open` without `O_CREAT`). -/
def disk_open : List (String × sst_file) → String → Option sst_file
  | [], _ => none
  | (n, f) :: rest, name => if n = name then some f else disk_open rest name

/-- The directory after `name` was created or truncated and written with `f`. -/
def disk_write : List (String × sst_file) → String → sst_file → List (String × sst_file)
  | [], name, f => [(name, f)]
  | (n, g) :: rest, name, f =>
    if n = name then (n, f) :: rest else (n, g) :: disk_write rest name f

/-- The name minted for a new file: `snprintf(sst->name, ..., "%d.sst", size)`. -/
def sst_name (size : Nat) : String := toString size ++ ".sst"

/-! ## The ordered container -/

/-- Modelled from the spec: `skiplist_insert` of skiplist.c, which is not among
the sources (spec 6.3): insertion of a record of key `sk`, keeping the
container in key order (keys are compared as C strings); the new node holds
the `sk.len` bytes of the slice. The spec does not say what becomes of a key
that is already present: here the new record is placed after it. -/
def skiplist_insert : List skipnode → List Nat → Nat → OPT → List skipnode
  | [], sk, val, opt => [⟨sk, val, opt⟩]
  | n :: rest, sk, val, opt =>
    if strcmp n.key sk ≤ 0 then n :: skiplist_insert rest sk val opt
    else ⟨sk, val, opt⟩ :: n :: rest

/-- Modelled from the spec: `skiplist_insert_node` of skiplist.c, which is not
among the sources (spec 6.3): insertion of the record of an existing node. -/
def skiplist_insert_node (list : List skipnode) (node : skipnode) : List skipnode :=
  skiplist_insert list node.key node.val node.opt

/-! ## The writer -/

/-- The result of the stats pass (`struct stats`). -/
structure stats where
  mmap_size : Nat
  max_len : Nat
  max_lcp : Nat
deriving DecidableEq, Repr

/-- The inner loop of `_prepare_stats`: the number of leading bytes on which the
two C strings agree (`while (pre_key[k] == node->key[k] && pre_key[k] != 0) k++`). -/
def lcp : List Nat → List Nat → Nat
  | a :: as, b :: bs => if a = b ∧ a ≠ 0 then lcp as bs + 1 else 0
  | _, _ => 0

/-- The loop of `_prepare_stats`; the first argument is the number of iterations
left, `node` the current node. On `continue` the iteration ends before
`node = node->forward[0]`, so the next iteration sees the same node. The result
is `(real_count, max_len, max_lcp)`. -/
def _prepare_stats_loop : Nat → List skipnode → Nat → Bool → Nat → Nat →
    Option (List Nat) → Option (Nat × Nat × Nat)
  | 0, _, real_count, _, max_len, max_lcp, _ => some (real_count, max_len, max_lcp)
  | _ + 1, [], _, _, _, _, _ => none
  | n + 1, node :: rest, real_count, goon, max_len, max_lcp, pre_key =>
    if node.opt = OPT.ADD then
      let real_count := real_count + 1
      let max_len := if node.klen > max_len then node.klen else max_len
      match goon, pre_key with
      | true, some pre =>
        let k := lcp pre node.key
        if k = 0 then
          _prepare_stats_loop n (node :: rest) real_count false max_len max_lcp pre_key
        else
          _prepare_stats_loop n rest real_count goon max_len
            (if max_lcp > k then k else max_lcp) (some node.key)
      | _, _ => _prepare_stats_loop n rest real_count goon max_len max_lcp (some node.key)
    else
      _prepare_stats_loop n rest real_count goon max_len max_lcp pre_key

/-- The stats pass `_prepare_stats(x, count, &stats)`. -/
def _prepare_stats (x : List skipnode) (count : Nat) : Option stats :=
  match _prepare_stats_loop count x 0 true 0 0 none with
  | none => none
  | some (real_count, max_len, max_lcp) =>
    some { mmap_size := (max_len + 4) * real_count, max_len := max_len, max_lcp := max_lcp }

/-- The block loop of `_write_mmap`; the first argument is the number of
iterations left (`c_clone - i`). The result is the mapped area, the running
`count`, `last` and the node the walk stopped at. `blks` is the block area, of
`mmap_size` bytes; `blks[j]` starts at `j * sizeof(struct inner_block)` and its
field `offset` sits `align4 max_len` bytes further. A store past the pages
mapped for the area ends the process. -/
def _write_mmap_loop (max_len : Nat) : Nat → List skipnode → Nat → Nat →
    Option skipnode → List Nat → Option (List Nat × Nat × Option skipnode × List skipnode)
  | 0, x, _, count, last, blks => some (blks, count, last, x)
  | _ + 1, [], _, _, _, _ => none
  | n + 1, node :: rest, j, count, _, blks =>
    if node.opt = OPT.ADD then
      let off := j * (align4 max_len + 4)
      if page_round blks.length < off + max (align4 max_len + 4) node.klen then none
      else
        let blks := poke blks off (List.replicate max_len 0)
        let blks := poke blks off node.key
        let blks := poke blks (off + align4 max_len) (to_be32 node.val)
        _write_mmap_loop max_len n rest (j + 1) count (some node) blks
    else
      _write_mmap_loop max_len n rest j (count - 1) (some node) blks

/-- The write pass `_write_mmap(sst, x, count, need_new)`: writes the file
`sst->name` and its descriptor and returns the first node not consumed. The
seek to `mmap_size - 1` fails, and the process ends, when the stats pass saw no
ADD record. The writer leaves `mn.lsn` unset (0 here): `meta_set` assigns it
and `meta_set_byname` keeps the one of the descriptor it updates. -/
def _write_mmap (cfg : config) (s : sst) (x : List skipnode) (count : Nat)
    (need_new : Bool) : Option (sst × List skipnode) :=
  match _prepare_stats x count with
  | none => none
  | some st =>
    if st.mmap_size = 0 then none
    else
      match _write_mmap_loop st.max_len count x 0 count x.head? (List.replicate st.mmap_size 0) with
      | some (blks, count, some last, x) =>
        let ft : footer :=
          { key := zero_pad cfg.NESSDB_MAX_KEY_SIZE last.key
            count := to_be32 count
            crc := to_be32 F_CRC
            size := to_be32 st.mmap_size
            max_len := to_be32 st.max_len
            max_lcp := to_be32 st.max_lcp }
        let mn : meta_node :=
          { index_name := s.name
            end_key := zero_pad cfg.NESSDB_MAX_KEY_SIZE last.key
            count := count
            lsn := 0 }
        let m := if need_new then meta_set s.meta mn else meta_set_byname s.meta mn
        some ({ s with meta := m, disk := disk_write s.disk s.name ⟨blks, ft⟩ }, x)
      | _ => none

/-! ## The readers -/

/-- The block loop of `_read_mmap`: `blks[i]` starts at
`i * sizeof(struct inner_block)` of the mapping; its `max_len` key bytes and
its four byte offset field, `align4 max_len` bytes into the block, are read
and inserted with `sk.len = max_len` and op ADD. -/
def _read_mmap_loop (f : sst_file) (blk_sizes max_len : Nat) : Nat → Nat → List skipnode →
    Option (List skipnode)
  | 0, _, merge => some merge
  | n + 1, i, merge =>
    match mapped_read f blk_sizes (i * (align4 max_len + 4)) max_len,
      mapped_read f blk_sizes (i * (align4 max_len + 4) + align4 max_len) 4 with
    | some key, some off =>
      _read_mmap_loop f blk_sizes max_len n (i + 1)
        (skiplist_insert merge key (from_be32 off) OPT.ADD)
    | _, _ => none

/-- The merge-base scan `_read_mmap(sst, count)`: the records of the file
`sst->name` in a fresh ordered container (of capacity `fcount + count + 1`,
which the insertions of one merge never exceed). A file that cannot be opened
or mapped ends the process. -/
def _read_mmap (s : sst) (_count : Nat) : Option (List skipnode) :=
  match disk_open s.disk s.name with
  | none => none
  | some f =>
    let fcount := from_be32 f.footer.count
    let blk_sizes := from_be32 f.footer.size
    let max_len := from_be32 f.footer.max_len
    if blk_sizes = 0 then none
    else _read_mmap_loop f blk_sizes max_len fcount 0 []

/-- The scan loop of `_read_offset`: each record is decoded as a two byte
`klen`, `klen` key bytes and an eight byte offset. The first argument is the
number of iterations left, the second is `cur`; `none` when a read leaves the
mapped pages or meets an indeterminate byte. -/
def _read_offset_loop (f : sst_file) (blk_sizes : Nat) (data : List Nat) : Nat → Nat → Option Nat
  | 0, _ => some 0
  | n + 1, cur =>
    match mapped_read f blk_sizes cur 2 with
    | none => none
    | some b =>
      let klen := u16_from_big b
      match memcmp f blk_sizes data (cur + 2) klen with
      | none => none
      | some true => (mapped_read f blk_sizes (cur + 2 + klen) 8).map u64_from_big
      | some false => _read_offset_loop f blk_sizes data n (cur + 2 + klen + 8)

/-- The point lookup `_read_offset(sst, sk)` in the file `sst->name`; `sk` is
the key of the slice, whose data is that key and its terminating zero byte.
A file that cannot be opened or mapped gives 0. -/
def _read_offset (s : sst) (sk : List Nat) : Option Nat :=
  match disk_open s.disk s.name with
  | none => some 0
  | some f =>
    let fcount := from_be32 f.footer.count
    let blk_sizes := from_be32 f.footer.size
    if blk_sizes = 0 then some 0
    else _read_offset_loop f blk_sizes (sk ++ [0]) fcount 0

/-! ## The merge coordinator -/

/-- The loop shared by both flush functions: `n` times, mint the name
`"%d.sst"` from the directory size and write `SST_MAX_COUNT` records to it. -/
def _flush_full_loop (cfg : config) : Nat → sst → List skipnode → Option (sst × List skipnode)
  | 0, s, x => some (s, x)
  | n + 1, s, x =>
    match _write_mmap cfg { s with name := sst_name s.meta.size } x cfg.SST_MAX_COUNT true with
    | none => none
    | some (s, x) => _flush_full_loop cfg n s x

/-- The in-place write of `_flush_merge_list`: with a descriptor, `mutexer.lsn`
is its `lsn` during the write and −1 afterwards. -/
def _write_gated (cfg : config) (s : sst) (x : List skipnode) (count : Nat)
    (mi : Option meta_node) : Option (sst × List skipnode) :=
  match mi with
  | some m =>
    match _write_mmap cfg { s with mutexer_lsn := m.lsn } x count false with
    | none => none
    | some (s, x) => some ({ s with mutexer_lsn := -1 }, x)
  | none => _write_mmap cfg s x count false

/-- The function `_flush_merge_list(sst, x, count, meta)`. -/
def _flush_merge_list (cfg : config) (s : sst) (x : List skipnode) (count : Nat)
    (mi : Option meta_node) : Option sst :=
  if count ≤ cfg.SST_MAX_COUNT * 2 then
    match _write_gated cfg s x count mi with
    | none => none
    | some (s, _) => some s
  else
    match _write_gated cfg s x cfg.SST_MAX_COUNT mi with
    | none => none
    | some (s, x) =>
      let mul := (count - cfg.SST_MAX_COUNT * 2) / cfg.SST_MAX_COUNT
      let rem := count % cfg.SST_MAX_COUNT
      match _flush_full_loop cfg mul s x with
      | none => none
      | some (s, x) =>
        match _write_mmap cfg { s with name := sst_name s.meta.size } x
            (rem + cfg.SST_MAX_COUNT) true with
        | none => none
        | some (s, _) => some s

/-- The function `_flush_new_list(sst, x, count)`; with `SST_MAX_COUNT = 0` the
division ends the process. -/
def _flush_new_list (cfg : config) (s : sst) (x : List skipnode) (count : Nat) : Option sst :=
  if count ≤ cfg.SST_MAX_COUNT * 2 then
    match _write_mmap cfg { s with name := sst_name s.meta.size } x count true with
    | none => none
    | some (s, _) => some s
  else if cfg.SST_MAX_COUNT = 0 then none
  else
    let mul := count / cfg.SST_MAX_COUNT
    let rem := count % cfg.SST_MAX_COUNT
    match _flush_full_loop cfg (mul - 1) s x with
    | none => none
    | some (s, x) =>
      match _write_mmap cfg { s with name := sst_name s.meta.size } x
          (cfg.SST_MAX_COUNT + rem) true with
      | none => none
      | some (s, _) => some s

/-- Flush of the pending merge buffer, if there is one. -/
def _flush_pending (cfg : config) (s : sst) (merge : Option (List skipnode))
    (mi : Option meta_node) : Option sst :=
  match merge with
  | some m => _flush_merge_list cfg s m m.length mi
  | none => some s

/-- The `while` loop of `_flush_list` and the code after it. `x` is the first
record of the batch and `count` its length; the first list is the walk from
`cur` to the end of the batch. `meta_info` is the descriptor last returned by
`meta_get`. -/
def _flush_list_loop (cfg : config) (x : List skipnode) (count : Nat) :
    List skipnode → Nat → sst → Option (List skipnode) → Option meta_node → Option sst
  | [], _, s, merge, meta_info => _flush_pending cfg s merge meta_info
  | cur :: rest, pos, s, merge, _ =>
    match meta_get s.meta cur.key with
    | none =>
      match _flush_pending cfg s merge none with
      | none => none
      | some s => _flush_new_list cfg s x (count - pos)
    | some mi =>
      if s.name = mi.index_name then
        match (match merge with
               | none => _read_mmap s count
               | some m => some m) with
        | none => none
        | some m =>
          _flush_list_loop cfg x count rest (pos + 1) s (some (skiplist_insert_node m cur))
            (some mi)
      else
        match _flush_pending cfg s merge (some mi) with
        | none => none
        | some s =>
          let s := { s with name := mi.index_name }
          match _read_mmap s count with
          | none => none
          | some m =>
            _flush_list_loop cfg x count rest (pos + 1) s (some (skiplist_insert_node m cur))
              (some mi)

/-- The function `_flush_list(sst, x, hdr, flush_count)`; the walk ends at the
header, that is after the last record of `x`. -/
def _flush_list (cfg : config) (s : sst) (x : List skipnode) (flush_count : Nat) : Option sst :=
  _flush_list_loop cfg x flush_count x 0 s none none

/-- The keys that `sst_merge` adds to the bloom filter when `fromlog == 1`. -/
def bloom_keys (list : List skipnode) : List (List Nat) :=
  (list.filter (fun n => n.opt = OPT.ADD)).map (fun n => n.key)

/-- The function `sst_merge(sst, list, fromlog)`; `list->count` is the length of `list`. -/
def sst_merge (cfg : config) (s : sst) (list : List skipnode) (fromlog : Bool) : Option sst :=
  let s := if fromlog then { s with bloom := s.bloom ++ bloom_keys list } else s
  if s.meta.size = 0 then _flush_new_list cfg s list list.length
  else _flush_list cfg s list list.length

/-- The function `sst_getoff(sst, sk)`: the engine afterwards (`sst->name` is
overwritten on a hit) and the offset returned. -/
def sst_getoff (s : sst) (sk : List Nat) : Option (sst × Nat) :=
  match meta_get s.meta sk with
  | none => some (s, 0)
  | some mi =>
    let s := { s with name := mi.index_name }
    match _read_offset s sk with
    | none => none
    | some off => some (s, off)

/-! ## Directory bootstrap -/

/-- Whether `strstr(d_name, ".sst")` finds the suffix mark in a file name. -/
def has_sst (d_name : String) : Bool := decide (".sst".data <:+: d_name.data)

/-- The loop of `_sst_load` over the directory entries. A crc other than
`F_CRC` ends the process. -/
def _sst_load_loop : List (String × sst_file) → meta → Option meta
  | [], m => some m
  | (d_name, f) :: rest, m =>
    if has_sst d_name then
      let fcount := from_be32 f.footer.count
      let fcrc := from_be32 f.footer.crc
      if fcrc ≠ F_CRC then none
      else if fcount = 0 then _sst_load_loop rest m
      else
        _sst_load_loop rest
          (meta_set m { index_name := d_name, end_key := f.footer.key, count := fcount, lsn := 0 })
    else _sst_load_loop rest m

/-- The function `_sst_load(sst)` over the files of `basedir`. -/
def _sst_load (s : sst) : Option sst :=
  match _sst_load_loop s.disk s.meta with
  | none => none
  | some m => some { s with meta := m }

/-- The function `sst_new(basedir)` on a directory holding the files `dir`. -/
def sst_new (dir : List (String × sst_file)) : Option sst :=
  _sst_load { name := "", meta := meta_new, mutexer_lsn := -1, bloom := [], disk := dir }

/-! ## Concrete data for the examples -/

/-- A small configuration: `SST_MAX_COUNT = 4`, `NESSDB_MAX_KEY_SIZE = 16`. -/
def cfg4 : config := ⟨4, 16⟩

/-- An ADD record. -/
def add_rec (key : List Nat) (val : Nat) : skipnode := ⟨key, val, OPT.ADD⟩

/-- A DEL record. -/
def del_rec (key : List Nat) : skipnode := ⟨key, 0, OPT.DEL⟩

/-- The key made of `n` copies of the character `c`. -/
def rep_key (n : Nat) (c : Char) : List Nat := List.replicate n c.toNat

/-- An engine with no SST file, as `sst_new` builds it on an empty directory. -/
def empty_sst : sst :=
  { name := "", meta := meta_new, mutexer_lsn := -1, bloom := [], disk := [] }

/-- The keys that the merge-base scan finds in the file `name`. -/
def stored_keys (s : sst) (name : String) : Option (List (List Nat)) :=
  (_read_mmap { s with name := name } 0).map (fun l => l.map (fun n => n.key))

/-- The blocks a write pass is specified to leave: the ADD records among the
first `count`, each as the key zero-padded to the longest ADD key and the
value as four big-endian bytes. -/
def spec_blocks (x : List skipnode) (count : Nat) : List Nat :=
  let adds := (x.take count).filter (fun n => n.opt = OPT.ADD)
  let max_key_len := (adds.map skipnode.klen).foldl max 0
  (adds.map (fun n => zero_pad max_key_len n.key ++ to_be32 n.val)).flatten

/-- The batch of the round-trip example: ADD "aaaa" → 1. -/
def batch_c1 : List skipnode := [add_rec (rep_key 4 'a') 1]

/-- The batch of the write-pass example: ADD "aaaa" → 1, ADD "bbbb" → 2,
ADD "cccccccc" → 3. -/
def batch_c2 : List skipnode :=
  [add_rec (rep_key 4 'a') 1, add_rec (rep_key 4 'b') 2, add_rec (rep_key 8 'c') 3]

/-- The first batch of the merge example: ADD "zzzzzzzz" → 9. -/
def batch_c5_old : List skipnode := [add_rec (rep_key 8 'z') 9]

/-- The second batch of the merge example: ADD "aaaa" → 1, ADD "bbbb" → 2. -/
def batch_c5_new : List skipnode := [add_rec (rep_key 4 'a') 1, add_rec (rep_key 4 'b') 2]

/-- The first batch of the partitioning example: ADD of "bbbb", "dddd", "ffff", "hhhh". -/
def batch_c7_old : List skipnode :=
  [add_rec (rep_key 4 'b') 1, add_rec (rep_key 4 'd') 2, add_rec (rep_key 4 'f') 3,
   add_rec (rep_key 4 'h') 4]

/-- The second batch of the partitioning example: ADD of "cccc", "nnnn", "oooo". -/
def batch_c7_new : List skipnode :=
  [add_rec (rep_key 4 'c') 5, add_rec (rep_key 4 'n') 6, add_rec (rep_key 4 'o') 7]

/-- The batch of the end-key example: ADD "aaaa" → 1, DEL "bbbb". -/
def batch_c8 : List skipnode := [add_rec (rep_key 4 'a') 1, del_rec (rep_key 4 'b')]

/-- The incoming batch of the spec scenario "merge into existing": ADD "cccc", ADD "eeee". -/
def batch_c5_scenario : List skipnode := [add_rec (rep_key 4 'c') 99, add_rec (rep_key 4 'e') 100]

/-- Two merges in a row on the empty engine. -/
def merge_twice (cfg : config) (b1 b2 : List skipnode) : Option sst :=
  match sst_merge cfg empty_sst b1 false with
  | none => none
  | some s => sst_merge cfg s b2 false

/-- The write passes as the spec lists them, each into a newly created file:
for every count of the list in turn, the name `"%d.sst"` is minted from the
directory size and `_write_mmap` is called with that count and `need_new = 1`,
starting at the node the previous pass returned. -/
def write_new_files (cfg : config) : List Nat → sst → List skipnode →
    Option (sst × List skipnode)
  | [], s, x => some (s, x)
  | c :: cs, s, x =>
    match _write_mmap cfg { s with name := sst_name s.meta.size } x c true with
    | none => none
    | some (s, x) => write_new_files cfg cs s x

/-- The value of a string of decimal digits. -/
def digits_val (ds : List Char) : Nat := ds.foldl (fun a c => 10 * a + (c.toNat - 48)) 0

/-- A directory that holds the single file `1.sst`, with the record "mmmm" → 5. -/
def dir_c6 : List (String × sst_file) :=
  [("1.sst",
    { blocks := [109, 109, 109, 109, 0, 0, 0, 5]
      footer :=
        { key := zero_pad 16 (rep_key 4 'm')
          count := [0, 0, 0, 1]
          crc := [0, 0, 7, 219]
          size := [0, 0, 0, 8]
          max_len := [0, 0, 0, 4]
          max_lcp := [0, 0, 0, 0] } })]

/-- The batch of the append example: ADD "nnnn" → 1. -/
def batch_c6 : List skipnode := [add_rec (rep_key 4 'n') 1]

/-- The engine after the bootstrap over `dir_c6`. -/
def sst_c6 : sst :=
  { name := ""
    meta := ⟨[{ index_name := "1.sst", end_key := zero_pad 16 (rep_key 4 'm'), count := 1, lsn := 0 }]⟩
    mutexer_lsn := -1
    bloom := []
    disk := dir_c6 }

/-- The engine that holds `0.sst` with the record "mmmm" → 5, as the first merge builds it. -/
def sst_c6_ok : sst :=
  { name := "0.sst"
    meta := ⟨[{ index_name := "0.sst", end_key := zero_pad 16 (rep_key 4 'm'), count := 1, lsn := 0 }]⟩
    mutexer_lsn := -1
    bloom := []
    disk := [("0.sst",
      { blocks := [109, 109, 109, 109, 0, 0, 0, 5]
        footer :=
          { key := zero_pad 16 (rep_key 4 'm')
            count := [0, 0, 0, 1]
            crc := [0, 0, 7, 219]
            size := [0, 0, 0, 8]
            max_len := [0, 0, 0, 4]
            max_lcp := [0, 0, 0, 0] } })] }

/-- The part of a descriptor that the bootstrap rebuilds: name, end key, record count. -/
def meta_triple (d : meta_node) : String × List Nat × Nat := (d.index_name, d.end_key, d.count)

/-- The same three values as the footer of a file on disk gives them. -/
def file_triple (p : String × sst_file) : String × List Nat × Nat :=
  (p.1, p.2.footer.key, from_be32 p.2.footer.count)

/-- Whether the bootstrap registers a directory entry: the name carries `.sst`
and the footer count is not 0. -/
def registered (p : String × sst_file) : Bool :=
  has_sst p.1 && decide (from_be32 p.2.footer.count ≠ 0)

/-- The states reached from the empty engine by a sequence of `sst_merge` calls
that return. -/
inductive reachable (cfg : config) : sst → Prop
  | empty : reachable cfg empty_sst
  | merge (s s' : sst) (list : List skipnode) (fromlog : Bool) :
      reachable cfg s → sst_merge cfg s list fromlog = some s' → reachable cfg s'

/-- The relation between the meta directory and the files on disk that every
write pass keeps: the files and the descriptors agree one by one on name, end
key and record count, the names are `0.sst`, `1.sst`, … in order of creation,
and every footer has the crc sentinel and a count other than 0. -/
def disk_meta_inv (m : meta) (d : List (String × sst_file)) : Prop :=
  d.map file_triple = m.nodes.map meta_triple
    ∧ m.nodes.map (fun n => n.index_name) = (List.range m.size).map sst_name
    ∧ ∀ p ∈ d, from_be32 p.2.footer.crc = F_CRC ∧ from_be32 p.2.footer.count ≠ 0

/-- The engine after the merge of `batch_c7_old` into the empty engine. -/
def sst_c9_first : sst := (sst_merge cfg4 empty_sst batch_c7_old false).getD empty_sst

/-- The engine after the merge of `batch_c7_new` into `sst_c9_first`; it holds
the files `0.sst` and `1.sst`. -/
def sst_c9 : sst := (sst_merge cfg4 sst_c9_first batch_c7_new false).getD empty_sst

/-- A directory whose single file `0.sst` has the footer crc 0. -/
def dir_c10_bad : List (String × sst_file) :=
  [("0.sst",
    { blocks := [109, 109, 109, 109, 0, 0, 0, 5]
      footer :=
        { key := zero_pad 16 (rep_key 4 'm')
          count := [0, 0, 0, 1]
          crc := [0, 0, 0, 0]
          size := [0, 0, 0, 8]
          max_len := [0, 0, 0, 4]
          max_lcp := [0, 0, 0, 0] } })]

/-- The batch of the lookup example: ADD "aaaa" → 1, ADD "bbbb" → 2. -/
def batch_c11 : List skipnode := [add_rec (rep_key 4 'a') 1, add_rec (rep_key 4 'b') 2]

/-- The batch of the second lookup example: ADD "" → 7, ADD "aaaa" → 1, ADD "bbbb" → 2. -/
def batch_c11_empty : List skipnode :=
  [add_rec [] 7, add_rec (rep_key 4 'a') 1, add_rec (rep_key 4 'b') 2]

/-- The key "abbb": it lies between "aaaa" and "bbbb". -/
def key_abbb : List Nat := ['a'.toNat, 'b'.toNat, 'b'.toNat, 'b'.toNat]

/-- The batch of the stats example: ADD "aaaa" → 1, ADD "bbbb" → 2, DEL "cccc". -/
def batch_c13 : List skipnode :=
  [add_rec (rep_key 4 'a') 1, add_rec (rep_key 4 'b') 2, del_rec (rep_key 4 'c')]

/-- The number of ADD records among the first `count` records of a list. -/
def add_count (x : List skipnode) (count : Nat) : Nat :=
  ((x.take count).filter (fun n => decide (n.opt = OPT.ADD))).length

/-- The longest key of an ADD record among the first `count` records of a list. -/
def max_add_klen (x : List skipnode) (count : Nat) : Nat :=
  (((x.take count).filter (fun n => decide (n.opt = OPT.ADD))).map skipnode.klen).foldl max 0

/-- The record counts that `_flush_new_list` passes to its write passes, in
order, as its arithmetic (`mul`, `rem`) gives them. -/
def new_list_chunks (cfg : config) (count : Nat) : List Nat :=
  if count ≤ cfg.SST_MAX_COUNT * 2 then [count]
  else
    let mul := count / cfg.SST_MAX_COUNT
    let rem := count % cfg.SST_MAX_COUNT
    List.replicate (mul - 1) cfg.SST_MAX_COUNT ++ [cfg.SST_MAX_COUNT + rem]

/-- The record counts that `_flush_merge_list` passes to its write passes, in
order, as its arithmetic (`mul`, `rem`) gives them; the first pass is the one
in place. -/
def merge_list_chunks (cfg : config) (count : Nat) : List Nat :=
  if count ≤ cfg.SST_MAX_COUNT * 2 then [count]
  else
    let mul := (count - cfg.SST_MAX_COUNT * 2) / cfg.SST_MAX_COUNT
    let rem := count % cfg.SST_MAX_COUNT
    cfg.SST_MAX_COUNT :: (List.replicate mul cfg.SST_MAX_COUNT ++ [rem + cfg.SST_MAX_COUNT])

/-- The write passes of a merge flush as the spec lists them: the first count
is written in place (`need_new = 0`, behind the gate when there is a
descriptor), the others into newly created files. -/
def write_merge_files (cfg : config) (cs : List Nat) (s : sst) (x : List skipnode)
    (mi : Option meta_node) : Option sst :=
  match cs with
  | [] => some s
  | c :: cs =>
    ((_write_gated cfg s x c mi).bind (fun r => write_new_files cfg cs r.1 r.2)).map Prod.fst

/-- The segments that successive write passes with the counts `cs` consume from
the list `x`: each pass starts where the one before stopped. -/
def chunk_segments : List Nat → List skipnode → List (List skipnode)
  | [], _ => []
  | c :: cs, x => x.take c :: chunk_segments cs (x.drop c)

/-- The merge buffer of the miss example when the walk reaches "nnnn": the
records of `0.sst` and the record "cccc". -/
def merge_c15 : List skipnode :=
  skiplist_insert_node ((_read_mmap sst_c9_first 3).getD []) (add_rec (rep_key 4 'c') 5)

/-- The engine of the miss example after the pending merge buffer was flushed
in place with no descriptor. -/
def sst_c15_flushed : sst :=
  (_flush_merge_list cfg4 sst_c9_first merge_c15 merge_c15.length none).getD empty_sst

/-- The first batch of the gate example: nine ADD records, which the empty
engine splits into `0.sst` ("bbbb" to "hhhh") and `1.sst` ("mmmm" to "qqqq"). -/
def batch_c17_old : List skipnode :=
  [add_rec (rep_key 4 'b') 1, add_rec (rep_key 4 'd') 2, add_rec (rep_key 4 'f') 3,
   add_rec (rep_key 4 'h') 4, add_rec (rep_key 4 'm') 5, add_rec (rep_key 4 'n') 6,
   add_rec (rep_key 4 'o') 7, add_rec (rep_key 4 'p') 8, add_rec (rep_key 4 'q') 9]

/-- The second batch of the gate example: ADD "cccc" (for `0.sst`) and ADD "llll"
(for `1.sst`). -/
def batch_c17_new : List skipnode := [add_rec (rep_key 4 'c') 10, add_rec (rep_key 4 'l') 11]

/-- The engine of the gate example after the first merge. -/
def sst_c17 : sst := (sst_merge cfg4 empty_sst batch_c17_old false).getD empty_sst

/-- What the gate holds during one in-place rewrite: the file rewritten
(`sst->name`), the value stored in `mutexer.lsn`, and the `lsn` of the
descriptor whose `index_name` is that file. -/
structure gate_entry where
  file : String
  gate_lsn : Int
  file_lsn : Option Int
deriving DecidableEq, Repr

/-- The `lsn` of the descriptor named `name`, if there is one. -/
def lsn_of (m : meta) (name : String) : Option Int :=
  (m.nodes.find? (fun d => decide (d.index_name = name))).map (fun d => d.lsn)

/-- The gate entry of a flush of the pending merge buffer: `_flush_merge_list`
takes the gate for its in-place write exactly when it is given a descriptor
`mi`, and then stores `mi->lsn`; the file it rewrites is `sst->name`. -/
def gate_entries (s : sst) (merge : Option (List skipnode)) (mi : Option meta_node) :
    List gate_entry :=
  match merge, mi with
  | some _, some m => [⟨s.name, m.lsn, lsn_of s.meta s.name⟩]
  | _, _ => []

/-- The loop of `_flush_list` once more, with a record of the gate entries of
the flushes it makes: the same steps as `_flush_list_loop`, and a list that
grows by `gate_entries` at each flush of the pending buffer. -/
def _flush_list_gates (cfg : config) (x : List skipnode) (count : Nat) :
    List skipnode → Nat → sst → Option (List skipnode) → Option meta_node → List gate_entry →
      Option (sst × List gate_entry)
  | [], _, s, merge, meta_info, log =>
    (_flush_pending cfg s merge meta_info).map
      (fun s' => (s', log ++ gate_entries s merge meta_info))
  | cur :: rest, pos, s, merge, _, log =>
    match meta_get s.meta cur.key with
    | none =>
      match _flush_pending cfg s merge none with
      | none => none
      | some s1 => (_flush_new_list cfg s1 x (count - pos)).map (fun s' => (s', log))
    | some mi =>
      if s.name = mi.index_name then
        match (match merge with
               | none => _read_mmap s count
               | some m => some m) with
        | none => none
        | some m =>
          _flush_list_gates cfg x count rest (pos + 1) s (some (skiplist_insert_node m cur))
            (some mi) log
      else
        match _flush_pending cfg s merge (some mi) with
        | none => none
        | some s1 =>
          match _read_mmap { s1 with name := mi.index_name } count with
          | none => none
          | some m =>
            _flush_list_gates cfg x count rest (pos + 1) { s1 with name := mi.index_name }
              (some (skiplist_insert_node m cur)) (some mi)
              (log ++ gate_entries s merge (some mi))

/-- The block of a record in a file of key width `max_len`: the key zero-padded
to `max_len` bytes, then the value as four big-endian bytes. -/
def block_of (max_len : Nat) (n : skipnode) : List Nat :=
  zero_pad max_len n.key ++ to_be32 n.val

/-- The record that the merge-base scan builds from the block of `n`: the key
with its padding (`sk.len = max_len`), the value, and op ADD. -/
def padded_node (max_len : Nat) (n : skipnode) : skipnode :=
  ⟨zero_pad max_len n.key, n.val, OPT.ADD⟩

/-- The batch of the scan example: ADD "ab" → 1, ADD "abcd" → 2. -/
def batch_c18 : List skipnode :=
  [add_rec ['a'.toNat, 'b'.toNat] 1, add_rec ['a'.toNat, 'b'.toNat, 'c'.toNat, 'd'.toNat] 2]

/-- A list whose keys have five bytes: ADD "abcde" → 1, ADD "abcdf" → 2. -/
def batch_c18_odd : List skipnode :=
  [add_rec ['a'.toNat, 'b'.toNat, 'c'.toNat, 'd'.toNat, 'e'.toNat] 1,
   add_rec ['a'.toNat, 'b'.toNat, 'c'.toNat, 'd'.toNat, 'f'.toNat] 2]

/-! ## Theorems -/

set_option maxRecDepth 100000 in
/-- C1 (the code departs from the claim): on the empty engine, after
`sst_merge` of the single record ADD "aaaa" → 1 (`SST_MAX_COUNT = 4`), the file
`0.sst` holds the block `"aaaa", 00 00 00 01` and the descriptor covers the key,
yet `sst_getoff("aaaa")` returns 0 and not the stored value 1: `_read_offset`
reads the first two key bytes as a length (0x6161) and compares from the third
byte on. -/
theorem C1_getoff_misses_written_key :
    (sst_merge cfg4 empty_sst batch_c1 false).map (fun s => s.disk.map (fun p => (p.1, p.2.blocks)))
        = some [("0.sst", [97, 97, 97, 97, 0, 0, 0, 1])]
      ∧ (sst_merge cfg4 empty_sst batch_c1 false).map
          (fun s => (meta_get s.meta (rep_key 4 'a')).map (fun d => d.index_name))
        = some (some "0.sst")
      ∧ ((sst_merge cfg4 empty_sst batch_c1 false).bind
          (fun s => sst_getoff s (rep_key 4 'a'))).map Prod.snd = some 0 := by
  decide

set_option maxRecDepth 100000 in
/-- C2 (the code departs from the claim): the write pass over ADD "aaaa" → 1,
ADD "bbbb" → 2, ADD "cccccccc" → 3 with `count = 3` leaves a block area whose
third block is `"cccc", 00 00 00 03`: the stats pass never visits the last
record, `max_len` is 4, and the eight byte key is cut to four bytes by the
offset stored over it. The specified blocks (keys zero-padded to 8) differ. -/
theorem C2_write_pass_cuts_last_key :
    _prepare_stats batch_c2 3 = some ⟨24, 4, 0⟩
      ∧ (_write_mmap cfg4 { empty_sst with name := "0.sst" } batch_c2 3 true).map
          (fun r => r.1.disk.map (fun p => p.2.blocks))
        = some [[97, 97, 97, 97, 0, 0, 0, 1, 98, 98, 98, 98, 0, 0, 0, 2, 99, 99, 99, 99, 0, 0, 0, 3]]
      ∧ spec_blocks batch_c2 3
        = [97, 97, 97, 97, 0, 0, 0, 0, 0, 0, 0, 1, 98, 98, 98, 98, 0, 0, 0, 0, 0, 0, 0, 2,
           99, 99, 99, 99, 99, 99, 99, 99, 0, 0, 0, 3] := by
  decide

set_option maxRecDepth 100000 in
/-- C5 (the code departs from the claim): the spec scenario (keys "bbbb",
"dddd", "ffff", "hhhh" on disk, ADD "cccc" and ADD "eeee" incoming) gives the
six keys in order, count 6 and end key "hhhh". But when the engine holds the
single file `0.sst` with the key "zzzzzzzz", merging the batch ADD "aaaa",
ADD "bbbb" (both below the end key, three records in all, `SST_MAX_COUNT = 4`)
rewrites `0.sst` with the keys "aaaa", "bbbb", "zzzz": the old key is cut to
four bytes, so the file does not hold the union of the old and the new keys. -/
theorem C5_merge_cuts_old_key :
    (merge_twice cfg4 batch_c7_old batch_c5_scenario).map
        (fun s => (stored_keys s "0.sst",
          s.meta.nodes.map (fun d => (d.index_name, cstr d.end_key, d.count))))
        = some (some [rep_key 4 'b', rep_key 4 'c', rep_key 4 'd', rep_key 4 'e', rep_key 4 'f',
                      rep_key 4 'h'],
                [("0.sst", rep_key 4 'h', 6)])
      ∧ (sst_merge cfg4 empty_sst batch_c5_old false).map (fun s => stored_keys s "0.sst")
        = some (some [rep_key 8 'z'])
      ∧ (merge_twice cfg4 batch_c5_old batch_c5_new).map (fun s => s.disk.map Prod.fst)
        = some ["0.sst"]
      ∧ (merge_twice cfg4 batch_c5_old batch_c5_new).map (fun s => stored_keys s "0.sst")
        = some (some [rep_key 4 'a', rep_key 4 'b', rep_key 4 'z'])
      ∧ rep_key 4 'z' ≠ rep_key 8 'z' := by
  decide

set_option maxRecDepth 100000 in
/-- C7 (the code departs from the claim): from the empty engine, merging ADD of
"bbbb", "dddd", "ffff", "hhhh" and then ADD of "cccc", "nnnn", "oooo" (both
strictly ascending, `SST_MAX_COUNT = 4`) gives the descriptors `0.sst` with end
key "hhhh" and `1.sst` with end key "nnnn"; "hhhh" < "nnnn", but `0.sst` stores
"dddd" and `1.sst` stores "cccc", and "dddd" > "cccc". -/
theorem C7_partitioning_broken :
    (merge_twice cfg4 batch_c7_old batch_c7_new).map
        (fun s => s.meta.nodes.map (fun d => (d.index_name, cstr d.end_key)))
        = some [("0.sst", rep_key 4 'h'), ("1.sst", rep_key 4 'n')]
      ∧ strcmp (rep_key 4 'h') (rep_key 4 'n') < 0
      ∧ (merge_twice cfg4 batch_c7_old batch_c7_new).map (fun s => stored_keys s "0.sst")
        = some (some [rep_key 4 'b', rep_key 4 'c', rep_key 4 'd', rep_key 4 'f', rep_key 4 'h'])
      ∧ (merge_twice cfg4 batch_c7_old batch_c7_new).map (fun s => stored_keys s "1.sst")
        = some (some [rep_key 4 'c', rep_key 4 'n'])
      ∧ strcmp (rep_key 4 'd') (rep_key 4 'c') > 0 := by
  decide

set_option maxRecDepth 100000 in
/-- C8 (the code departs from the claim): the write pass over ADD "aaaa" → 1,
DEL "bbbb" with `count = 2` writes the single block of "aaaa", but the footer
key and the descriptor's end key are both "bbbb", the key of the DEL record
consumed last. -/
theorem C8_end_key_of_trailing_del :
    (_write_mmap cfg4 { empty_sst with name := "0.sst" } batch_c8 2 true).map
        (fun r => r.1.disk.map (fun p => (p.2.blocks, cstr p.2.footer.key, p.2.footer.count)))
        = some [([97, 97, 97, 97, 0, 0, 0, 1], rep_key 4 'b', [0, 0, 0, 1])]
      ∧ (_write_mmap cfg4 { empty_sst with name := "0.sst" } batch_c8 2 true).map
          (fun r => r.1.meta.nodes.map (fun d => (cstr d.end_key, d.count)))
        = some [(rep_key 4 'b', 1)]
      ∧ rep_key 4 'b' ≠ rep_key 4 'a' := by
  decide

/-! ### Chunking -/

theorem flush_full_loop_eq (cfg : config) (n : Nat) (s : sst) (x : List skipnode) :
    _flush_full_loop cfg n s x
      = write_new_files cfg (List.replicate n cfg.SST_MAX_COUNT) s x := by
  induction n generalizing s x with
  | zero => rfl
  | succ n ih =>
    simp only [_flush_full_loop, List.replicate_succ, write_new_files]
    cases _write_mmap cfg { s with name := sst_name s.meta.size } x cfg.SST_MAX_COUNT true with
    | none => rfl
    | some r => exact ih r.1 r.2

theorem write_new_files_append (cfg : config) (a b : List Nat) (s : sst) (x : List skipnode) :
    write_new_files cfg (a ++ b) s x
      = (write_new_files cfg a s x).bind (fun r => write_new_files cfg b r.1 r.2) := by
  induction a generalizing s x with
  | nil => rfl
  | cons c cs ih =>
    simp only [List.cons_append, write_new_files]
    cases _write_mmap cfg { s with name := sst_name s.meta.size } x c true with
    | none => rfl
    | some r => exact ih r.1 r.2

theorem write_new_files_single (cfg : config) (c : Nat) (s : sst) (x : List skipnode) :
    (write_new_files cfg [c] s x).map Prod.fst
      = match _write_mmap cfg { s with name := sst_name s.meta.size } x c true with
        | none => none
        | some (s, _) => some s := by
  simp only [write_new_files]
  cases _write_mmap cfg { s with name := sst_name s.meta.size } x c true with
  | none => rfl
  | some r => rfl

theorem flush_new_list_eq (cfg : config) (s : sst) (x : List skipnode) (count : Nat)
    (hM : 0 < cfg.SST_MAX_COUNT) :
    _flush_new_list cfg s x count
      = (write_new_files cfg
          (if count ≤ 2 * cfg.SST_MAX_COUNT then [count]
           else List.replicate (count / cfg.SST_MAX_COUNT - 1) cfg.SST_MAX_COUNT
                  ++ [cfg.SST_MAX_COUNT + count % cfg.SST_MAX_COUNT]) s x).map Prod.fst := by
  unfold _flush_new_list
  by_cases h : count ≤ cfg.SST_MAX_COUNT * 2
  · have h2 : count ≤ 2 * cfg.SST_MAX_COUNT := by omega
    rw [if_pos h, if_pos h2, write_new_files_single]
  · have h2 : ¬ count ≤ 2 * cfg.SST_MAX_COUNT := by omega
    have h3 : ¬ cfg.SST_MAX_COUNT = 0 := by omega
    rw [if_neg h, if_neg h2, if_neg h3]
    dsimp only
    rw [write_new_files_append, flush_full_loop_eq]
    cases write_new_files cfg
        (List.replicate (count / cfg.SST_MAX_COUNT - 1) cfg.SST_MAX_COUNT) s x with
    | none => rfl
    | some r =>
      simp only [Option.some_bind]
      rw [write_new_files_single]

/-- C3: for `SST_MAX_COUNT = M > 0` and `count = k * M + r` with `r < M`,
`_flush_new_list` is the sequence of write passes into new files with the
record counts `[count]` when `count ≤ 2 * M`, and otherwise `k - 1` times `M`
followed by `M + r`. -/
theorem C3_flush_new_list_chunks (cfg : config) (k r : Nat) (hr : r < cfg.SST_MAX_COUNT)
    (s : sst) (x : List skipnode) :
    _flush_new_list cfg s x (k * cfg.SST_MAX_COUNT + r)
      = (write_new_files cfg
          (if k * cfg.SST_MAX_COUNT + r ≤ 2 * cfg.SST_MAX_COUNT
           then [k * cfg.SST_MAX_COUNT + r]
           else List.replicate (k - 1) cfg.SST_MAX_COUNT ++ [cfg.SST_MAX_COUNT + r])
          s x).map Prod.fst := by
  have hM : 0 < cfg.SST_MAX_COUNT := by omega
  have hdiv : (k * cfg.SST_MAX_COUNT + r) / cfg.SST_MAX_COUNT = k := by
    rw [Nat.mul_comm, Nat.mul_add_div hM, Nat.div_eq_of_lt hr, Nat.add_zero]
  have hmod : (k * cfg.SST_MAX_COUNT + r) % cfg.SST_MAX_COUNT = r := by
    rw [Nat.mul_comm, Nat.mul_add_mod, Nat.mod_eq_of_lt hr]
  rw [flush_new_list_eq cfg s x _ hM, hdiv, hmod]

/-- C3 at `SST_MAX_COUNT = 4`, `count = 10 = 2 * 4 + 2`: the write passes
receive 4 and then 6 records. -/
theorem C3_flush_new_list_chunks_witness :
    (2 : Nat) < cfg4.SST_MAX_COUNT
      ∧ ∀ (s : sst) (x : List skipnode),
          _flush_new_list cfg4 s x 10 = (write_new_files cfg4 [4, 6] s x).map Prod.fst :=
  ⟨by decide, fun s x => C3_flush_new_list_chunks cfg4 2 2 (by decide) s x⟩

theorem flush_merge_list_eq (cfg : config) (s : sst) (x : List skipnode) (count : Nat)
    (mi : Option meta_node) :
    _flush_merge_list cfg s x count mi
      = if count ≤ 2 * cfg.SST_MAX_COUNT then
          (_write_gated cfg s x count mi).map Prod.fst
        else
          ((_write_gated cfg s x cfg.SST_MAX_COUNT mi).bind (fun r =>
            write_new_files cfg
              (List.replicate ((count - 2 * cfg.SST_MAX_COUNT) / cfg.SST_MAX_COUNT)
                  cfg.SST_MAX_COUNT
                ++ [count % cfg.SST_MAX_COUNT + cfg.SST_MAX_COUNT]) r.1 r.2)).map Prod.fst := by
  unfold _flush_merge_list
  by_cases h : count ≤ cfg.SST_MAX_COUNT * 2
  · have h2 : count ≤ 2 * cfg.SST_MAX_COUNT := by omega
    rw [if_pos h, if_pos h2]
    cases _write_gated cfg s x count mi with
    | none => rfl
    | some r => rfl
  · have h2 : ¬ count ≤ 2 * cfg.SST_MAX_COUNT := by omega
    rw [if_neg h, if_neg h2]
    cases _write_gated cfg s x cfg.SST_MAX_COUNT mi with
    | none => rfl
    | some r =>
      simp only [Option.some_bind]
      rw [write_new_files_append, flush_full_loop_eq, Nat.mul_comm cfg.SST_MAX_COUNT 2]
      cases write_new_files cfg
          (List.replicate ((count - 2 * cfg.SST_MAX_COUNT) / cfg.SST_MAX_COUNT)
            cfg.SST_MAX_COUNT) r.1 r.2 with
      | none => rfl
      | some r2 =>
        simp only [Option.some_bind]
        rw [write_new_files_single]

/-- C4: `_flush_merge_list` is one in-place write pass (`need_new = 0`) of all
`count` records when `count ≤ 2 * M`; otherwise an in-place write pass of `M`
records followed by `(count - 2 * M) / M` write passes of `M` records and a
last one of `count % M + M` records, each into a new file. -/
theorem C4_flush_merge_list_chunks (cfg : config) (s : sst) (x : List skipnode) (count : Nat)
    (mi : Option meta_node) :
    _flush_merge_list cfg s x count mi
      = if count ≤ 2 * cfg.SST_MAX_COUNT then
          (_write_gated cfg s x count mi).map Prod.fst
        else
          ((_write_gated cfg s x cfg.SST_MAX_COUNT mi).bind (fun r =>
            write_new_files cfg
              (List.replicate ((count - 2 * cfg.SST_MAX_COUNT) / cfg.SST_MAX_COUNT)
                  cfg.SST_MAX_COUNT
                ++ [count % cfg.SST_MAX_COUNT + cfg.SST_MAX_COUNT]) r.1 r.2)).map Prod.fst :=
  flush_merge_list_eq cfg s x count mi

/-! ### The write pass -/

theorem from_be32_to_be32 (v : Nat) : from_be32 (to_be32 v) = v % 2 ^ 32 := by
  simp only [from_be32, to_be32, from_big, List.take, List.foldl]
  omega

theorem write_loop_count (max_len : Nat) :
    ∀ (n : Nat) (x : List skipnode) (j c : Nat) (last : Option skipnode) (blks : List Nat)
      (r : List Nat × Nat × Option skipnode × List skipnode),
      _write_mmap_loop max_len n x j c last blks = some r →
        n ≤ x.length ∧
        r.2.1 = c - ((x.take n).filter (fun nd => decide (nd.opt ≠ OPT.ADD))).length := by
  intro n
  induction n with
  | zero =>
    intro x j c last blks r h
    simp only [_write_mmap_loop, Option.some.injEq] at h
    subst h
    simp
  | succ n ih =>
    intro x j c last blks r h
    cases x with
    | nil => simp [_write_mmap_loop] at h
    | cons node rest =>
      simp only [_write_mmap_loop] at h
      by_cases hop : node.opt = OPT.ADD
      · rw [if_pos hop] at h
        split at h
        · exact Option.noConfusion h
        obtain ⟨h1, h2⟩ := ih _ _ _ _ _ _ h
        refine ⟨by simp only [List.length_cons]; omega, ?_⟩
        rw [h2]
        simp [List.take_succ_cons, List.filter_cons, hop]
      · rw [if_neg hop] at h
        obtain ⟨h1, h2⟩ := ih _ _ _ _ _ _ h
        refine ⟨by simp only [List.length_cons]; omega, ?_⟩
        rw [h2]
        simp only [List.take_succ_cons, List.filter_cons, ne_eq, hop, not_false_eq_true,
          decide_True, if_true, List.length_cons]
        omega

theorem stats_loop_no_add :
    ∀ (n : Nat) (x : List skipnode) (rc : Nat) (goon : Bool) (ml lcp0 : Nat)
      (pre : Option (List Nat)) (r : Nat × Nat × Nat),
      _prepare_stats_loop n x rc goon ml lcp0 pre = some r →
        (∀ nd ∈ x.take n, nd.opt ≠ OPT.ADD) → r.1 = rc := by
  intro n
  induction n with
  | zero =>
    intro x rc goon ml lcp0 pre r h _
    simp only [_prepare_stats_loop, Option.some.injEq] at h
    subst h
    rfl
  | succ n ih =>
    intro x rc goon ml lcp0 pre r h hno
    cases x with
    | nil => simp [_prepare_stats_loop] at h
    | cons node rest =>
      have hop : node.opt ≠ OPT.ADD := hno node (by simp [List.take_succ_cons])
      simp only [_prepare_stats_loop, if_neg hop] at h
      exact ih _ _ _ _ _ _ _ h (fun nd hnd => hno nd (by
        simp only [List.take_succ_cons, List.mem_cons]
        exact Or.inr hnd))

/-- What a completed write pass leaves: the file `sst->name` with a footer that
agrees with the descriptor handed to the meta directory, a crc of `F_CRC`, and
a record count between 1 and `count`. -/
theorem write_mmap_spec (cfg : config) (s s' : sst) (x x' : List skipnode) (count : Nat)
    (need_new : Bool) (h : _write_mmap cfg s x count need_new = some (s', x')) :
    ∃ (f : sst_file) (mn : meta_node),
      mn.index_name = s.name ∧ f.footer.key = mn.end_key ∧ f.footer.count = to_be32 mn.count
        ∧ f.footer.crc = to_be32 F_CRC ∧ 0 < mn.count ∧ mn.count ≤ count
        ∧ s' = { s with
                  meta := if need_new then meta_set s.meta mn else meta_set_byname s.meta mn
                  disk := disk_write s.disk s.name f } := by
  unfold _write_mmap at h
  cases hst : _prepare_stats x count with
  | none => simp [hst] at h
  | some st =>
    simp only [hst] at h
    by_cases hz : st.mmap_size = 0
    · simp [hz] at h
    · rw [if_neg hz] at h
      cases hl : _write_mmap_loop st.max_len count x 0 count x.head?
          (List.replicate st.mmap_size 0) with
      | none => simp [hl] at h
      | some r =>
        obtain ⟨blks, cnt, last, xr⟩ := r
        cases last with
        | none => simp [hl] at h
        | some last =>
          simp only [hl, Option.some.injEq, Prod.mk.injEq] at h
          obtain ⟨hlen, hcnt⟩ := write_loop_count _ _ _ _ _ _ _ _ hl
          simp only at hcnt
          -- the stats pass saw an ADD record
          have hadd : ∃ nd ∈ x.take count, nd.opt = OPT.ADD := by
            by_contra hcon
            push_neg at hcon
            unfold _prepare_stats at hst
            cases hsl : _prepare_stats_loop count x 0 true 0 0 none with
            | none => simp [hsl] at hst
            | some t =>
              obtain ⟨rc, ml, lc⟩ := t
              simp only [hsl, Option.some.injEq] at hst
              have := stats_loop_no_add _ _ _ _ _ _ _ _ hsl hcon
              simp only at this
              subst this
              subst hst
              simp at hz
          have hsplit : ((x.take count).filter (fun nd => decide (nd.opt ≠ OPT.ADD))).length
              < (x.take count).length := by
            obtain ⟨nd, hmem, hop⟩ := hadd
            have hle := List.length_filter_le (fun nd => decide (nd.opt ≠ OPT.ADD)) (x.take count)
            rcases Nat.lt_or_eq_of_le hle with hlt | heq
            · exact hlt
            · exfalso
              have hall := (List.filter_length_eq_length).1 heq nd hmem
              simp [hop] at hall
          have htk : (x.take count).length = count := by
            rw [List.length_take]; omega
          refine ⟨⟨blks, ⟨zero_pad cfg.NESSDB_MAX_KEY_SIZE last.key, to_be32 cnt, to_be32 F_CRC,
              to_be32 st.mmap_size, to_be32 st.max_len, to_be32 st.max_lcp⟩⟩,
            ⟨s.name, zero_pad cfg.NESSDB_MAX_KEY_SIZE last.key, cnt, 0⟩,
            rfl, rfl, rfl, rfl, ?_, ?_, ?_⟩
          · simp only; omega
          · simp only; omega
          · exact h.1.symm

/-! ### File names -/

theorem digitChar_val (m : Nat) (h : m < 10) : (Nat.digitChar m).toNat - 48 = m := by
  interval_cases m <;> rfl

theorem toDigitsCore_val :
    ∀ (fuel n : Nat) (ds : List Char), n < fuel →
      (Nat.toDigitsCore 10 fuel n ds).foldl (fun a c => 10 * a + (c.toNat - 48)) 0
        = ds.foldl (fun a c => 10 * a + (c.toNat - 48)) n := by
  intro fuel
  induction fuel with
  | zero => intro n ds h; omega
  | succ fuel ih =>
    intro n ds h
    simp only [Nat.toDigitsCore]
    by_cases h0 : n / 10 = 0
    · rw [if_pos h0]
      simp only [List.foldl_cons]
      rw [digitChar_val _ (Nat.mod_lt _ (by decide))]
      congr 1
      omega
    · rw [if_neg h0, ih (n / 10) _ (by omega)]
      simp only [List.foldl_cons]
      rw [digitChar_val _ (Nat.mod_lt _ (by decide))]
      congr 1
      omega

theorem digits_val_repr (n : Nat) : digits_val (Nat.repr n).data = n := by
  simp only [digits_val, Nat.repr, Nat.toDigits, List.asString]
  rw [toDigitsCore_val _ _ _ (Nat.lt_succ_self n)]
  rfl

theorem sst_name_injective (a b : Nat) (h : sst_name a = sst_name b) : a = b := by
  simp only [sst_name] at h
  have h1 : (toString a ++ ".sst").data = (toString b ++ ".sst").data := by rw [h]
  simp only [String.data_append] at h1
  have h2 : (toString a).data = (toString b).data := List.append_cancel_right h1
  have h3 : digits_val (Nat.repr a).data = digits_val (Nat.repr b).data := by
    show digits_val (toString a).data = digits_val (toString b).data
    rw [h2]
  rwa [digits_val_repr, digits_val_repr] at h3

theorem has_sst_sst_name (n : Nat) : has_sst (sst_name n) = true := by
  simp only [has_sst, sst_name, decide_eq_true_eq, String.data_append]
  exact (List.suffix_append _ _).isInfix

/-! ### Append beyond the range of every file -/

theorem disk_open_write_ne (d : List (String × sst_file)) (nm name : String) (f : sst_file)
    (hne : name ≠ nm) : disk_open (disk_write d nm f) name = disk_open d name := by
  induction d with
  | nil =>
    simp only [disk_write, disk_open]
    rw [if_neg (fun h => hne h.symm)]
  | cons p rest ih =>
    obtain ⟨n, g⟩ := p
    simp only [disk_write]
    by_cases h1 : n = nm
    · rw [if_pos h1]
      simp only [disk_open]
      rw [if_neg (by rw [h1]; exact fun h => hne h.symm),
        if_neg (by rw [h1]; exact fun h => hne h.symm)]
    · rw [if_neg h1]
      simp only [disk_open]
      rw [ih]

theorem write_new_files_frame (cfg : config) (d0 : List (String × sst_file)) :
    ∀ (cs : List Nat) (s : sst) (x : List skipnode) (r : sst × List skipnode),
      write_new_files cfg cs s x = some r →
      (∀ n, s.meta.size ≤ n → disk_open d0 (sst_name n) = none) →
      (∀ name f, disk_open d0 name = some f → disk_open s.disk name = some f) →
        (∀ name f, disk_open d0 name = some f → disk_open r.1.disk name = some f)
          ∧ s.meta.nodes <+: r.1.meta.nodes := by
  intro cs
  induction cs with
  | nil =>
    intro s x r h _ hkeep
    simp only [write_new_files, Option.some.injEq] at h
    subst h
    exact ⟨hkeep, List.prefix_refl _⟩
  | cons c cs ih =>
    intro s x r h hfresh hkeep
    simp only [write_new_files] at h
    cases hw : _write_mmap cfg { s with name := sst_name s.meta.size } x c true with
    | none => simp [hw] at h
    | some r1 =>
      obtain ⟨s1, x1⟩ := r1
      simp only [hw] at h
      obtain ⟨f, mn, -, -, -, -, -, -, hs1⟩ := write_mmap_spec _ _ _ _ _ _ _ hw
      simp only [if_true] at hs1
      have hsize : s1.meta.size = s.meta.size + 1 := by
        rw [hs1]; simp [meta_set, meta.size]
      have hpre : s.meta.nodes <+: s1.meta.nodes := by
        rw [hs1]; exact List.prefix_append _ _
      have hkeep1 : ∀ name g, disk_open d0 name = some g → disk_open s1.disk name = some g := by
        intro name g hg
        have hne : name ≠ sst_name s.meta.size := by
          intro heq
          rw [heq, hfresh _ (Nat.le_refl _)] at hg
          exact Option.noConfusion hg
        rw [hs1]
        simp only
        rw [disk_open_write_ne _ _ _ _ hne]
        exact hkeep name g hg
      obtain ⟨h1, h2⟩ := ih s1 x1 r h (fun n hn => hfresh n (by omega)) hkeep1
      exact ⟨h1, hpre.trans h2⟩

theorem flush_list_miss_first (cfg : config) (s : sst) (cur : skipnode) (rest : List skipnode)
    (count : Nat) (hmiss : meta_get s.meta cur.key = none) :
    _flush_list cfg s (cur :: rest) count = _flush_new_list cfg s (cur :: rest) count := by
  simp only [_flush_list, _flush_list_loop, hmiss, _flush_pending, Nat.sub_zero]

/-- C6 (amended): the meta directory is not empty, `meta_get` misses on the
first key of the batch, and no file on disk is named `n.sst` for an `n` at or
above the directory size. Then `sst_merge` hands the whole batch to
`_flush_new_list`, and when it returns every file that was on disk is still
there with its content and the old descriptors are the first descriptors of
the new directory, unchanged. -/
theorem C6_append_keeps_old_files (cfg : config) (s : sst) (cur : skipnode)
    (rest : List skipnode) (fromlog : Bool)
    (hne : s.meta.size ≠ 0) (hmiss : meta_get s.meta cur.key = none)
    (hfresh : ∀ n, s.meta.size ≤ n → disk_open s.disk (sst_name n) = none) :
    sst_merge cfg s (cur :: rest) fromlog
        = _flush_new_list cfg
            (if fromlog then { s with bloom := s.bloom ++ bloom_keys (cur :: rest) } else s)
            (cur :: rest) (cur :: rest).length
      ∧ ∀ s', sst_merge cfg s (cur :: rest) fromlog = some s' →
          (∀ name f, disk_open s.disk name = some f → disk_open s'.disk name = some f)
            ∧ s.meta.nodes <+: s'.meta.nodes := by
  have key : ∀ s0 : sst, s0.meta = s.meta → s0.disk = s.disk →
      (if s0.meta.size = 0 then _flush_new_list cfg s0 (cur :: rest) (cur :: rest).length
        else _flush_list cfg s0 (cur :: rest) (cur :: rest).length)
          = _flush_new_list cfg s0 (cur :: rest) (cur :: rest).length
      ∧ ∀ s', _flush_new_list cfg s0 (cur :: rest) (cur :: rest).length = some s' →
          (∀ name f, disk_open s.disk name = some f → disk_open s'.disk name = some f)
            ∧ s.meta.nodes <+: s'.meta.nodes := by
    intro s0 hm hd
    constructor
    · rw [hm, if_neg hne]
      exact flush_list_miss_first cfg s0 cur rest _ (by rw [hm]; exact hmiss)
    · intro s' hs'
      by_cases hM : cfg.SST_MAX_COUNT = 0
      · exfalso
        unfold _flush_new_list at hs'
        rw [hM] at hs'
        simp at hs'
      · rw [flush_new_list_eq cfg s0 _ _ (Nat.pos_of_ne_zero hM)] at hs'
        cases hw : write_new_files cfg
            (if (cur :: rest).length ≤ 2 * cfg.SST_MAX_COUNT then [(cur :: rest).length]
             else List.replicate ((cur :: rest).length / cfg.SST_MAX_COUNT - 1) cfg.SST_MAX_COUNT
                    ++ [cfg.SST_MAX_COUNT + (cur :: rest).length % cfg.SST_MAX_COUNT])
            s0 (cur :: rest) with
        | none =>
          rw [hw] at hs'
          exact Option.noConfusion hs'
        | some r =>
          rw [hw] at hs'
          simp only [Option.map_some', Option.some.injEq] at hs'
          have := write_new_files_frame cfg s.disk _ s0 _ r hw
            (by rw [hm]; exact hfresh) (by rw [hd]; exact fun _ _ h => h)
          rw [hm, hs'] at this
          exact this
  unfold sst_merge
  cases fromlog with
  | false =>
    simp only [Bool.false_eq_true, if_false]
    obtain ⟨h1, h2⟩ := key s rfl rfl
    exact ⟨h1, fun s' hs' => h2 s' (by rw [← h1]; exact hs')⟩
  | true =>
    simp only [if_true]
    obtain ⟨h1, h2⟩ := key { s with bloom := s.bloom ++ bloom_keys (cur :: rest) } rfl rfl
    exact ⟨h1, fun s' hs' => h2 s' (by rw [← h1]; exact hs')⟩

set_option maxRecDepth 100000 in
/-- C6 (amended) at the engine holding `0.sst` with end key "mmmm" and the
batch ADD "nnnn" → 1 (the engine is the one the merge of ADD "mmmm" → 5 builds
from the empty engine): the hypotheses hold and the merge leaves `0.sst` as it was. -/
theorem C6_append_keeps_old_files_witness :
    sst_merge cfg4 empty_sst [add_rec (rep_key 4 'm') 5] false = some sst_c6_ok
      ∧ sst_c6_ok.meta.size ≠ 0
      ∧ meta_get sst_c6_ok.meta (rep_key 4 'n') = none
      ∧ (∀ n, sst_c6_ok.meta.size ≤ n → disk_open sst_c6_ok.disk (sst_name n) = none)
      ∧ (sst_merge cfg4 sst_c6_ok batch_c6 false).map (fun s => s.disk.map Prod.fst)
          = some ["0.sst", "1.sst"]
      ∧ ∀ s', sst_merge cfg4 sst_c6_ok batch_c6 false = some s' →
          (∀ name f, disk_open sst_c6_ok.disk name = some f → disk_open s'.disk name = some f)
            ∧ sst_c6_ok.meta.nodes <+: s'.meta.nodes := by
  have hfresh : ∀ n, sst_c6_ok.meta.size ≤ n → disk_open sst_c6_ok.disk (sst_name n) = none := by
    intro n hn
    have h1 : sst_c6_ok.meta.size = 1 := by decide
    have hne : ¬ ("0.sst" = sst_name n) := by
      intro h
      have h0 : sst_name 0 = sst_name n := h
      have := sst_name_injective 0 n h0
      omega
    simp only [sst_c6_ok, disk_open]
    rw [if_neg hne]
  exact ⟨by decide, by decide, by decide, hfresh, by decide,
    (C6_append_keeps_old_files cfg4 sst_c6_ok (add_rec (rep_key 4 'n') 1) [] false
      (by decide) (by decide) hfresh).2⟩

set_option maxRecDepth 100000 in
/-- C6 (as stated, refuted): the bootstrap over a directory that holds only
`1.sst` (end key "mmmm") gives a directory of size 1; `meta_get` misses on
"nnnn"; the merge of ADD "nnnn" → 1 mints the name `1.sst` again and the file,
which held "mmmm", now holds "nnnn". -/
theorem C6_existing_file_rewritten :
    sst_new dir_c6 = some sst_c6
      ∧ sst_c6.meta.size ≠ 0
      ∧ meta_get sst_c6.meta (rep_key 4 'n') = none
      ∧ stored_keys sst_c6 "1.sst" = some [rep_key 4 'm']
      ∧ (sst_merge cfg4 sst_c6 batch_c6 false).map (fun s => stored_keys s "1.sst")
          = some (some [rep_key 4 'n'])
      ∧ (sst_merge cfg4 sst_c6 batch_c6 false).map (fun s => disk_open s.disk "1.sst")
          ≠ some (disk_open sst_c6.disk "1.sst") := by
  decide

/-! ### Directory bootstrap -/

theorem sst_load_loop_none (dir : List (String × sst_file)) (m : meta) :
    _sst_load_loop dir m = none
      ↔ ∃ p ∈ dir, has_sst p.1 = true ∧ from_be32 p.2.footer.crc ≠ F_CRC := by
  induction dir generalizing m with
  | nil => simp [_sst_load_loop]
  | cons p rest ih =>
    obtain ⟨n, f⟩ := p
    simp only [_sst_load_loop, List.mem_cons, exists_eq_or_imp]
    by_cases hs : has_sst n = true
    · by_cases hc : from_be32 f.footer.crc = F_CRC
      · by_cases h0 : from_be32 f.footer.count = 0
        · simp [hs, hc, h0, ih]
        · simp [hs, hc, h0, ih]
      · simp [hs, hc]
    · simp [hs, ih]

theorem sst_load_loop_some (dir : List (String × sst_file)) (m m' : meta)
    (h : _sst_load_loop dir m = some m') :
    m.nodes <+: m'.nodes
      ∧ m'.nodes.map meta_triple
          = m.nodes.map meta_triple ++ (dir.filter registered).map file_triple := by
  induction dir generalizing m with
  | nil =>
    simp only [_sst_load_loop, Option.some.injEq] at h
    subst h
    simp
  | cons p rest ih =>
    obtain ⟨n, f⟩ := p
    simp only [_sst_load_loop] at h
    by_cases hs : has_sst n = true
    · rw [if_pos hs] at h
      by_cases hc : from_be32 f.footer.crc = F_CRC
      · simp only [hc, ne_eq, not_true_eq_false, if_false] at h
        by_cases h0 : from_be32 f.footer.count = 0
        · rw [if_pos h0] at h
          obtain ⟨h1, h2⟩ := ih m h
          refine ⟨h1, ?_⟩
          rw [h2, List.filter_cons]
          simp [registered, hs, h0]
        · rw [if_neg h0] at h
          obtain ⟨h1, h2⟩ := ih _ h
          refine ⟨(List.prefix_append _ _).trans h1, ?_⟩
          rw [h2, List.filter_cons]
          simp [registered, hs, h0, meta_set, meta_triple, file_triple]
      · simp [hc] at h
    · rw [if_neg hs] at h
      obtain ⟨h1, h2⟩ := ih m h
      refine ⟨h1, ?_⟩
      rw [h2, List.filter_cons]
      simp [registered, hs]

theorem disk_open_write_self (d : List (String × sst_file)) (nm : String) (f : sst_file) :
    disk_open (disk_write d nm f) nm = some f := by
  induction d with
  | nil => simp [disk_write, disk_open]
  | cons p rest ih =>
    obtain ⟨n, g⟩ := p
    simp only [disk_write]
    by_cases h1 : n = nm
    · rw [if_pos h1]
      simp [disk_open, h1]
    · rw [if_neg h1]
      simp only [disk_open]
      rw [if_neg h1, ih]

theorem sst_load_accepts (f : sst_file) (hcrc : from_be32 f.footer.crc = F_CRC) (name : String)
    (m : meta) : _sst_load_loop [(name, f)] m ≠ none := by
  intro h
  obtain ⟨p, hp, -, hbad⟩ := (sst_load_loop_none _ _).1 h
  simp only [List.mem_singleton] at hp
  subst hp
  exact hbad hcrc

theorem write_mmap_crc (cfg : config) (s s' : sst) (x x' : List skipnode) (count : Nat)
    (need_new : Bool) (h : _write_mmap cfg s x count need_new = some (s', x')) :
    ∃ f, disk_open s'.disk s.name = some f ∧ from_be32 f.footer.crc = 2011
      ∧ ∀ m, _sst_load_loop [(s.name, f)] m ≠ none := by
  obtain ⟨f, mn, -, -, -, hcrc, -, -, hs'⟩ := write_mmap_spec _ _ _ _ _ _ _ h
  have hc : from_be32 f.footer.crc = F_CRC := by
    rw [hcrc]
    decide
  refine ⟨f, ?_, hc, sst_load_accepts f hc s.name⟩
  rw [hs']
  exact disk_open_write_self _ _ _

/-- C10: the bootstrap loop ends the process exactly when some directory entry
whose name carries `.sst` has a footer crc other than 0x7DB; when it returns,
the descriptors present before are kept and the new ones are, in directory
order, those of the entries whose name carries `.sst` and whose footer count is
not 0, each with the file name, the footer key and the footer count; and the
file left by a completed write pass has the crc 0x7DB, so the bootstrap does
not end the process on it. -/
theorem C10_bootstrap_decision :
    (∀ (dir : List (String × sst_file)) (m : meta),
        _sst_load_loop dir m = none
          ↔ ∃ p ∈ dir, has_sst p.1 = true ∧ from_be32 p.2.footer.crc ≠ 0x7DB)
      ∧ (∀ (dir : List (String × sst_file)) (m m' : meta),
          _sst_load_loop dir m = some m' →
            m.nodes <+: m'.nodes
              ∧ m'.nodes.map meta_triple
                  = m.nodes.map meta_triple ++ (dir.filter registered).map file_triple)
      ∧ (∀ (cfg : config) (s s' : sst) (x x' : List skipnode) (count : Nat) (need_new : Bool),
          _write_mmap cfg s x count need_new = some (s', x') →
            ∃ f, disk_open s'.disk s.name = some f ∧ from_be32 f.footer.crc = 0x7DB
              ∧ ∀ m, _sst_load_loop [(s.name, f)] m ≠ none) :=
  ⟨sst_load_loop_none, sst_load_loop_some, write_mmap_crc⟩

/-! ### The directory and the disk agree -/

theorem disk_write_append (d : List (String × sst_file)) (nm : String) (f : sst_file)
    (h : nm ∉ d.map Prod.fst) : disk_write d nm f = d ++ [(nm, f)] := by
  induction d with
  | nil => rfl
  | cons p rest ih =>
    obtain ⟨n, g⟩ := p
    simp only [List.map_cons, List.mem_cons, not_or] at h
    simp only [disk_write]
    rw [if_neg (fun e => h.1 e.symm), ih h.2]
    rfl

theorem mem_disk_write (d : List (String × sst_file)) (nm : String) (f : sst_file)
    (p : String × sst_file) (h : p ∈ disk_write d nm f) : p ∈ d ∨ p = (nm, f) := by
  induction d with
  | nil =>
    simp only [disk_write, List.mem_singleton] at h
    exact Or.inr h
  | cons q rest ih =>
    obtain ⟨n, g⟩ := q
    simp only [disk_write] at h
    by_cases h1 : n = nm
    · rw [if_pos h1] at h
      rcases List.mem_cons.1 h with h2 | h2
      · right; rw [h2, h1]
      · left; exact List.mem_cons_of_mem _ h2
    · rw [if_neg h1] at h
      rcases List.mem_cons.1 h with h2 | h2
      · left; rw [h2]; exact List.mem_cons_self _ _
      · rcases ih h2 with h3 | h3
        · left; exact List.mem_cons_of_mem _ h3
        · right; exact h3

theorem byname_map_id (ns : List meta_node) (mn : meta_node)
    (h : mn.index_name ∉ ns.map (fun n => n.index_name)) :
    ns.map (fun d =>
      if d.index_name = mn.index_name then
        { d with end_key := mn.end_key, count := mn.count }
      else d) = ns := by
  induction ns with
  | nil => rfl
  | cons a rest ih =>
    simp only [List.map_cons, List.mem_cons, not_or] at h
    simp only [List.map_cons]
    rw [if_neg (fun e => h.1 e.symm), ih h.2]

theorem disk_write_aligned (mn : meta_node) (f : sst_file)
    (hf : file_triple (mn.index_name, f) = meta_triple mn) :
    ∀ (d : List (String × sst_file)) (ns : List meta_node),
      d.map file_triple = ns.map meta_triple →
      (ns.map (fun n => n.index_name)).Nodup →
      mn.index_name ∈ ns.map (fun n => n.index_name) →
        (disk_write d mn.index_name f).map file_triple
          = (ns.map (fun d =>
              if d.index_name = mn.index_name then
                { d with end_key := mn.end_key, count := mn.count }
              else d)).map meta_triple := by
  intro d
  induction d with
  | nil =>
    intro ns hal _ hmem
    cases ns with
    | nil => simp at hmem
    | cons a rest => simp at hal
  | cons p rest ih =>
    intro ns hal hnd hmem
    obtain ⟨n, g⟩ := p
    cases ns with
    | nil => simp at hal
    | cons a ns' =>
      simp only [List.map_cons, List.cons.injEq] at hal
      obtain ⟨hhead, htail⟩ := hal
      have hn : n = a.index_name := by
        have := congrArg Prod.fst hhead
        simpa [file_triple, meta_triple] using this
      simp only [List.map_cons, List.nodup_cons] at hnd
      simp only [disk_write, List.map_cons]
      by_cases h1 : a.index_name = mn.index_name
      · rw [if_pos (hn.trans h1), if_pos h1]
        have hnot : mn.index_name ∉ ns'.map (fun n => n.index_name) := by
          rw [← h1]; exact hnd.1
        rw [byname_map_id ns' mn hnot]
        simp only [List.map_cons, List.cons.injEq]
        refine ⟨?_, htail⟩
        rw [hn, h1]
        simpa [file_triple, meta_triple, h1] using hf
      · rw [if_neg (by rw [hn]; exact h1), if_neg h1]
        simp only [List.map_cons, List.cons.injEq]
        refine ⟨hhead, ?_⟩
        have hmem' : mn.index_name ∈ ns'.map (fun n => n.index_name) := by
          simp only [List.map_cons, List.mem_cons] at hmem
          rcases hmem with h2 | h2
          · exact absurd h2.symm h1
          · exact h2
        exact ih ns' htail hnd.2 hmem'

theorem sst_names_nodup (n : Nat) : ((List.range n).map sst_name).Nodup :=
  (List.nodup_range n).map (fun a b h => sst_name_injective a b h)

theorem sst_name_not_mem (n : Nat) : sst_name n ∉ (List.range n).map sst_name := by
  intro h
  obtain ⟨k, hk, he⟩ := List.mem_map.1 h
  have := sst_name_injective _ _ he
  rw [List.mem_range] at hk
  omega

theorem inv_disk_names (m : meta) (d : List (String × sst_file)) (h : disk_meta_inv m d) :
    d.map Prod.fst = (List.range m.size).map sst_name := by
  obtain ⟨ha, hb, -⟩ := h
  rw [← hb]
  have := congrArg (List.map Prod.fst) ha
  simpa [List.map_map, Function.comp_def, file_triple, meta_triple] using this

theorem inv_write_new (cfg : config) (s s' : sst) (x x' : List skipnode) (c : Nat)
    (hinv : disk_meta_inv s.meta s.disk) (hc : c < 2 ^ 32)
    (h : _write_mmap cfg { s with name := sst_name s.meta.size } x c true = some (s', x')) :
    disk_meta_inv s'.meta s'.disk ∧ s'.meta.size = s.meta.size + 1
      ∧ s'.name = sst_name s.meta.size := by
  obtain ⟨f, mn, hname, hkey, hcount, hcrc, hpos, hle, hs'⟩ := write_mmap_spec _ _ _ _ _ _ _ h
  simp only at hname
  simp only [if_true] at hs'
  have hnames := inv_disk_names _ _ hinv
  obtain ⟨ha, hb, hcgood⟩ := hinv
  have hfresh : sst_name s.meta.size ∉ s.disk.map Prod.fst := by
    rw [hnames]; exact sst_name_not_mem _
  have hcnt : from_be32 f.footer.count = mn.count := by
    rw [hcount, from_be32_to_be32]
    exact Nat.mod_eq_of_lt (by omega)
  subst hs'
  simp only
  rw [disk_write_append _ _ _ hfresh]
  refine ⟨⟨?_, ?_, ?_⟩, ?_, trivial⟩
  · simp only [meta_set, List.map_append, ha, List.map_cons, List.map_nil]
    congr 1
    simp [file_triple, meta_triple, hname, hkey, hcnt]
  · simp only [meta_set, meta.size, List.map_append, List.length_append, List.length_singleton,
      List.map_cons, List.map_nil, List.range_succ]
    rw [hb, hname]
    rfl
  · intro p hp
    rcases List.mem_append.1 hp with h1 | h1
    · exact hcgood p h1
    · simp only [List.mem_singleton] at h1
      subst h1
      simp only
      refine ⟨by rw [hcrc]; decide, by rw [hcnt]; omega⟩
  · simp [meta_set, meta.size]

theorem inv_write_inplace (cfg : config) (s s' : sst) (x x' : List skipnode) (c : Nat)
    (hinv : disk_meta_inv s.meta s.disk)
    (hreg : s.name ∈ s.meta.nodes.map (fun n => n.index_name)) (hc : c < 2 ^ 32)
    (h : _write_mmap cfg s x c false = some (s', x')) :
    disk_meta_inv s'.meta s'.disk ∧ s'.meta.size = s.meta.size ∧ s'.name = s.name := by
  obtain ⟨f, mn, hname, hkey, hcount, hcrc, hpos, hle, hs'⟩ := write_mmap_spec _ _ _ _ _ _ _ h
  simp only [Bool.false_eq_true, if_false] at hs'
  obtain ⟨ha, hb, hcgood⟩ := hinv
  have hcnt : from_be32 f.footer.count = mn.count := by
    rw [hcount, from_be32_to_be32]
    exact Nat.mod_eq_of_lt (by omega)
  have hnd : (s.meta.nodes.map (fun n => n.index_name)).Nodup := by
    rw [hb]; exact sst_names_nodup _
  have hf : file_triple (mn.index_name, f) = meta_triple mn := by
    simp [file_triple, meta_triple, hkey, hcnt]
  subst hs'
  simp only
  rw [← hname] at hreg ⊢
  refine ⟨⟨?_, ?_, ?_⟩, ?_, trivial⟩
  · exact disk_write_aligned mn f hf _ _ ha hnd hreg
  · have hsz : (meta_set_byname s.meta mn).size = s.meta.size := by
      simp [meta_set_byname, meta.size]
    rw [hsz, ← hb]
    simp only [meta_set_byname, List.map_map]
    apply List.map_congr_left
    intro a _
    simp only [Function.comp]
    split <;> rfl
  · intro p hp
    rcases mem_disk_write _ _ _ _ hp with h1 | h1
    · exact hcgood p h1
    · subst h1
      simp only
      refine ⟨by rw [hcrc]; decide, by rw [hcnt]; omega⟩
  · simp [meta_set_byname, meta.size]

theorem write_mmap_count_pos (cfg : config) (s : sst) (x : List skipnode) (c : Nat)
    (need_new : Bool) (r : sst × List skipnode)
    (h : _write_mmap cfg s x c need_new = some r) : 0 < c := by
  obtain ⟨s', x'⟩ := r
  obtain ⟨f, mn, -, -, -, -, hpos, hle, -⟩ := write_mmap_spec _ _ _ _ _ _ _ h
  omega

theorem inv_name_lt (m : meta) (d : List (String × sst_file)) (h : disk_meta_inv m d)
    (k : Nat) (hk : k < m.size) : sst_name k ∈ m.nodes.map (fun n => n.index_name) := by
  rw [h.2.1]
  exact List.mem_map.2 ⟨k, List.mem_range.2 hk, rfl⟩

theorem inv_name_mono (m m' : meta) (d d' : List (String × sst_file))
    (h : disk_meta_inv m d) (h' : disk_meta_inv m' d') (hle : m.size ≤ m'.size)
    (nm : String) (hnm : nm ∈ m.nodes.map (fun n => n.index_name)) :
    nm ∈ m'.nodes.map (fun n => n.index_name) := by
  rw [h.2.1] at hnm
  obtain ⟨k, hk, he⟩ := List.mem_map.1 hnm
  rw [← he]
  exact inv_name_lt m' d' h' k (by rw [List.mem_range] at hk; omega)

theorem inv_write_new_files (cfg : config) :
    ∀ (cs : List Nat) (s : sst) (x : List skipnode) (r : sst × List skipnode),
      write_new_files cfg cs s x = some r →
      disk_meta_inv s.meta s.disk →
      (∀ c ∈ cs, c < 2 ^ 32) →
      s.name ∈ s.meta.nodes.map (fun n => n.index_name) →
        disk_meta_inv r.1.meta r.1.disk ∧ s.meta.size ≤ r.1.meta.size
          ∧ r.1.name ∈ r.1.meta.nodes.map (fun n => n.index_name) := by
  intro cs
  induction cs with
  | nil =>
    intro s x r h hinv _ hreg
    simp only [write_new_files, Option.some.injEq] at h
    subst h
    exact ⟨hinv, Nat.le_refl _, hreg⟩
  | cons c cs ih =>
    intro s x r h hinv hcs hreg
    simp only [write_new_files] at h
    cases hw : _write_mmap cfg { s with name := sst_name s.meta.size } x c true with
    | none => simp [hw] at h
    | some r1 =>
      obtain ⟨s1, x1⟩ := r1
      simp only [hw] at h
      obtain ⟨hinv1, hsz1, hn1⟩ :=
        inv_write_new cfg s s1 x x1 c hinv (hcs c (List.mem_cons_self _ _)) hw
      have hreg1 : s1.name ∈ s1.meta.nodes.map (fun n => n.index_name) := by
        rw [hn1]
        exact inv_name_lt _ _ hinv1 _ (by omega)
      obtain ⟨h1, h2, h3⟩ :=
        ih s1 x1 r h hinv1 (fun c' hc' => hcs c' (List.mem_cons_of_mem _ hc')) hreg1
      exact ⟨h1, by omega, h3⟩

theorem inv_write_gated (cfg : config) (s : sst) (x : List skipnode) (c : Nat)
    (mi : Option meta_node) (r : sst × List skipnode)
    (h : _write_gated cfg s x c mi = some r)
    (hinv : disk_meta_inv s.meta s.disk)
    (hreg : s.name ∈ s.meta.nodes.map (fun n => n.index_name)) (hc : c < 2 ^ 32) :
    disk_meta_inv r.1.meta r.1.disk ∧ r.1.meta.size = s.meta.size
      ∧ r.1.name ∈ r.1.meta.nodes.map (fun n => n.index_name) ∧ 0 < c := by
  cases mi with
  | none =>
    simp only [_write_gated] at h
    obtain ⟨s1, x1⟩ := r
    obtain ⟨h1, h2, h3⟩ := inv_write_inplace cfg s s1 x x1 c hinv hreg hc h
    refine ⟨h1, h2, ?_, write_mmap_count_pos _ _ _ _ _ _ h⟩
    simp only
    rw [h3]
    exact inv_name_mono _ _ _ _ hinv h1 (by omega) _ hreg
  | some m =>
    simp only [_write_gated] at h
    cases hw : _write_mmap cfg { s with mutexer_lsn := m.lsn } x c false with
    | none => simp [hw] at h
    | some r1 =>
      obtain ⟨s1, x1⟩ := r1
      simp only [hw, Option.some.injEq] at h
      subst h
      obtain ⟨h1, h2, h3⟩ :=
        inv_write_inplace cfg { s with mutexer_lsn := m.lsn } s1 x x1 c hinv hreg hc hw
      refine ⟨h1, h2, ?_, write_mmap_count_pos _ _ _ _ _ _ hw⟩
      simp only at h3 ⊢
      rw [h3]
      exact inv_name_mono _ _ _ _ hinv h1 (by simp only at h2; omega) _ hreg

theorem inv_flush_merge_list (cfg : config) (hM : cfg.SST_MAX_COUNT < 2 ^ 31) (s s' : sst)
    (x : List skipnode) (count : Nat) (mi : Option meta_node)
    (h : _flush_merge_list cfg s x count mi = some s')
    (hinv : disk_meta_inv s.meta s.disk)
    (hreg : s.name ∈ s.meta.nodes.map (fun n => n.index_name)) :
    disk_meta_inv s'.meta s'.disk ∧ s.meta.size ≤ s'.meta.size := by
  rw [flush_merge_list_eq] at h
  by_cases hc : count ≤ 2 * cfg.SST_MAX_COUNT
  · rw [if_pos hc] at h
    cases hw : _write_gated cfg s x count mi with
    | none => simp [hw] at h
    | some r =>
      simp only [hw, Option.map_some', Option.some.injEq] at h
      obtain ⟨h1, h2, -, -⟩ := inv_write_gated cfg s x count mi r hw hinv hreg (by omega)
      rw [h] at h1 h2
      exact ⟨h1, by omega⟩
  · rw [if_neg hc] at h
    cases hw : _write_gated cfg s x cfg.SST_MAX_COUNT mi with
    | none => simp [hw] at h
    | some r =>
      simp only [hw, Option.some_bind] at h
      obtain ⟨h1, h2, h3, hpos⟩ :=
        inv_write_gated cfg s x cfg.SST_MAX_COUNT mi r hw hinv hreg (by omega)
      cases hn : write_new_files cfg
          (List.replicate ((count - 2 * cfg.SST_MAX_COUNT) / cfg.SST_MAX_COUNT)
              cfg.SST_MAX_COUNT
            ++ [count % cfg.SST_MAX_COUNT + cfg.SST_MAX_COUNT]) r.1 r.2 with
      | none => simp [hn] at h
      | some r2 =>
        simp only [hn, Option.map_some', Option.some.injEq] at h
        have hcs : ∀ c ∈ List.replicate ((count - 2 * cfg.SST_MAX_COUNT) / cfg.SST_MAX_COUNT)
              cfg.SST_MAX_COUNT
            ++ [count % cfg.SST_MAX_COUNT + cfg.SST_MAX_COUNT], c < 2 ^ 32 := by
          intro c hcm
          rcases List.mem_append.1 hcm with hc1 | hc1
          · rw [(List.mem_replicate.1 hc1).2]; omega
          · simp only [List.mem_singleton] at hc1
            have := Nat.mod_lt count hpos
            omega
        obtain ⟨g1, g2, -⟩ := inv_write_new_files cfg _ r.1 r.2 r2 hn h1 hcs h3
        rw [h] at g1 g2
        exact ⟨g1, by omega⟩

theorem inv_flush_new_list (cfg : config) (hM : cfg.SST_MAX_COUNT < 2 ^ 31) (s s' : sst)
    (x : List skipnode) (count : Nat)
    (h : _flush_new_list cfg s x count = some s')
    (hinv : disk_meta_inv s.meta s.disk) :
    disk_meta_inv s'.meta s'.disk ∧ s.meta.size ≤ s'.meta.size := by
  by_cases hM0 : cfg.SST_MAX_COUNT = 0
  · exfalso
    unfold _flush_new_list at h
    by_cases hc : count ≤ cfg.SST_MAX_COUNT * 2
    · rw [if_pos hc] at h
      cases hw : _write_mmap cfg { s with name := sst_name s.meta.size } x count true with
      | none => simp [hw] at h
      | some r =>
        have := write_mmap_count_pos _ _ _ _ _ _ hw
        omega
    · rw [if_neg hc, if_pos hM0] at h
      exact Option.noConfusion h
  · have hpos : 0 < cfg.SST_MAX_COUNT := Nat.pos_of_ne_zero hM0
    rw [flush_new_list_eq cfg s x count hpos] at h
    cases hn : write_new_files cfg
        (if count ≤ 2 * cfg.SST_MAX_COUNT then [count]
         else List.replicate (count / cfg.SST_MAX_COUNT - 1) cfg.SST_MAX_COUNT
                ++ [cfg.SST_MAX_COUNT + count % cfg.SST_MAX_COUNT]) s x with
    | none => simp [hn] at h
    | some r =>
      simp only [hn, Option.map_some', Option.some.injEq] at h
      have hcs : ∀ c ∈ (if count ≤ 2 * cfg.SST_MAX_COUNT then [count]
         else List.replicate (count / cfg.SST_MAX_COUNT - 1) cfg.SST_MAX_COUNT
                ++ [cfg.SST_MAX_COUNT + count % cfg.SST_MAX_COUNT]), c < 2 ^ 32 := by
        intro c hcm
        by_cases hc : count ≤ 2 * cfg.SST_MAX_COUNT
        · rw [if_pos hc, List.mem_singleton] at hcm
          omega
        · rw [if_neg hc] at hcm
          rcases List.mem_append.1 hcm with hc1 | hc1
          · rw [(List.mem_replicate.1 hc1).2]; omega
          · simp only [List.mem_singleton] at hc1
            have := Nat.mod_lt count hpos
            omega
      -- the first pass mints its own name, so the name held before does not matter
      cases hl : (if count ≤ 2 * cfg.SST_MAX_COUNT then [count]
         else List.replicate (count / cfg.SST_MAX_COUNT - 1) cfg.SST_MAX_COUNT
                ++ [cfg.SST_MAX_COUNT + count % cfg.SST_MAX_COUNT]) with
      | nil =>
        rw [hl] at hn
        simp only [write_new_files, Option.some.injEq] at hn
        rw [← h, ← hn]
        exact ⟨hinv, Nat.le_refl _⟩
      | cons c cs =>
        rw [hl] at hn hcs
        simp only [write_new_files] at hn
        cases hw : _write_mmap cfg { s with name := sst_name s.meta.size } x c true with
        | none => simp [hw] at hn
        | some r1 =>
          obtain ⟨s1, x1⟩ := r1
          simp only [hw] at hn
          obtain ⟨hinv1, hsz1, hn1⟩ :=
            inv_write_new cfg s s1 x x1 c hinv (hcs c (List.mem_cons_self _ _)) hw
          have hreg1 : s1.name ∈ s1.meta.nodes.map (fun n => n.index_name) := by
            rw [hn1]
            exact inv_name_lt _ _ hinv1 _ (by omega)
          obtain ⟨g1, g2, -⟩ := inv_write_new_files cfg cs s1 x1 r hn hinv1
            (fun c' hc' => hcs c' (List.mem_cons_of_mem _ hc')) hreg1
          rw [h] at g1 g2
          exact ⟨g1, by omega⟩

theorem meta_get_foldl_mem (key : List Nat) :
    ∀ (l : List meta_node) (best : Option meta_node) (d : meta_node),
      l.foldl (fun best n => if strcmp key n.end_key ≤ 0 then meta_pick best n else best) best
          = some d →
        d ∈ l ∨ best = some d := by
  intro l
  induction l with
  | nil =>
    intro best d h
    exact Or.inr h
  | cons a rest ih =>
    intro best d h
    simp only [List.foldl_cons] at h
    rcases ih _ d h with h1 | h1
    · exact Or.inl (List.mem_cons_of_mem _ h1)
    · by_cases hk : strcmp key a.end_key ≤ 0
      · rw [if_pos hk] at h1
        cases best with
        | none =>
          simp only [meta_pick, Option.some.injEq] at h1
          left; rw [← h1]; exact List.mem_cons_self _ _
        | some b =>
          simp only [meta_pick] at h1
          by_cases hb : strcmp a.end_key b.end_key < 0
          · rw [if_pos hb, Option.some.injEq] at h1
            left; rw [← h1]; exact List.mem_cons_self _ _
          · rw [if_neg hb] at h1
            exact Or.inr h1
      · rw [if_neg hk] at h1
        exact Or.inr h1

theorem meta_get_mem (m : meta) (key : List Nat) (d : meta_node)
    (h : meta_get m key = some d) : d ∈ m.nodes := by
  rcases meta_get_foldl_mem key m.nodes none d h with h1 | h1
  · exact h1
  · exact Option.noConfusion h1

theorem inv_flush_pending (cfg : config) (hM : cfg.SST_MAX_COUNT < 2 ^ 31) (s s' : sst)
    (merge : Option (List skipnode)) (mi : Option meta_node)
    (h : _flush_pending cfg s merge mi = some s')
    (hinv : disk_meta_inv s.meta s.disk)
    (hreg : merge ≠ none → s.name ∈ s.meta.nodes.map (fun n => n.index_name)) :
    disk_meta_inv s'.meta s'.disk ∧ s.meta.size ≤ s'.meta.size := by
  cases merge with
  | none =>
    simp only [_flush_pending, Option.some.injEq] at h
    subst h
    exact ⟨hinv, Nat.le_refl _⟩
  | some m =>
    simp only [_flush_pending] at h
    exact inv_flush_merge_list cfg hM s s' m m.length mi h hinv (hreg (by simp))

theorem inv_flush_list_loop (cfg : config) (hM : cfg.SST_MAX_COUNT < 2 ^ 31)
    (x : List skipnode) (count : Nat) :
    ∀ (cur : List skipnode) (pos : Nat) (s : sst) (merge : Option (List skipnode))
      (mi : Option meta_node) (s' : sst),
      _flush_list_loop cfg x count cur pos s merge mi = some s' →
      disk_meta_inv s.meta s.disk →
      (merge ≠ none → s.name ∈ s.meta.nodes.map (fun n => n.index_name)) →
        disk_meta_inv s'.meta s'.disk := by
  intro cur
  induction cur with
  | nil =>
    intro pos s merge mi s' h hinv hreg
    simp only [_flush_list_loop] at h
    exact (inv_flush_pending cfg hM s s' merge mi h hinv hreg).1
  | cons c rest ih =>
    intro pos s merge mi s' h hinv hreg
    simp only [_flush_list_loop] at h
    cases hg : meta_get s.meta c.key with
    | none =>
      simp only [hg] at h
      cases hp : _flush_pending cfg s merge none with
      | none => simp [hp] at h
      | some s1 =>
        simp only [hp] at h
        obtain ⟨h1, -⟩ := inv_flush_pending cfg hM s s1 merge none hp hinv hreg
        exact (inv_flush_new_list cfg hM s1 s' x _ h h1).1
    | some d =>
      simp only [hg] at h
      have hd : d.index_name ∈ s.meta.nodes.map (fun n => n.index_name) :=
        List.mem_map.2 ⟨d, meta_get_mem _ _ _ hg, rfl⟩
      by_cases hn : s.name = d.index_name
      · rw [if_pos hn] at h
        have hreg' : s.name ∈ s.meta.nodes.map (fun n => n.index_name) := by
          rw [hn]; exact hd
        cases merge with
        | none =>
          simp only at h
          cases hr : _read_mmap s count with
          | none => simp [hr] at h
          | some m =>
            simp only [hr] at h
            exact ih _ _ _ _ _ h hinv (fun _ => hreg')
        | some m =>
          simp only at h
          exact ih _ _ _ _ _ h hinv (fun _ => hreg')
      · rw [if_neg hn] at h
        cases hp : _flush_pending cfg s merge (some d) with
        | none => simp [hp] at h
        | some s1 =>
          simp only [hp] at h
          obtain ⟨h1, h2⟩ := inv_flush_pending cfg hM s s1 merge (some d) hp hinv hreg
          cases hr : _read_mmap { s1 with name := d.index_name } count with
          | none => simp [hr] at h
          | some m =>
            simp only [hr] at h
            exact ih _ { s1 with name := d.index_name } _ _ _ h h1
              (fun _ => inv_name_mono _ _ _ _ hinv h1 h2 _ hd)

theorem inv_sst_merge (cfg : config) (hM : cfg.SST_MAX_COUNT < 2 ^ 31) (s s' : sst)
    (list : List skipnode) (fromlog : Bool)
    (h : sst_merge cfg s list fromlog = some s')
    (hinv : disk_meta_inv s.meta s.disk) : disk_meta_inv s'.meta s'.disk := by
  have key : ∀ s0 : sst, disk_meta_inv s0.meta s0.disk →
      (if s0.meta.size = 0 then _flush_new_list cfg s0 list list.length
        else _flush_list cfg s0 list list.length) = some s' →
      disk_meta_inv s'.meta s'.disk := by
    intro s0 h0 hs
    by_cases hz : s0.meta.size = 0
    · rw [if_pos hz] at hs
      exact (inv_flush_new_list cfg hM s0 s' list _ hs h0).1
    · rw [if_neg hz] at hs
      exact inv_flush_list_loop cfg hM list list.length list 0 s0 none none s' hs h0
        (fun hne => absurd rfl hne)
  unfold sst_merge at h
  cases fromlog with
  | false => exact key s hinv h
  | true => exact key { s with bloom := s.bloom ++ bloom_keys list } hinv h

theorem inv_reachable (cfg : config) (hM : cfg.SST_MAX_COUNT < 2 ^ 31) (s : sst)
    (h : reachable cfg s) : disk_meta_inv s.meta s.disk := by
  induction h with
  | empty =>
    refine ⟨rfl, rfl, ?_⟩
    intro p hp
    simp [empty_sst] at hp
  | merge s s' list fromlog _ hm ih => exact inv_sst_merge cfg hM s s' list fromlog hm ih

theorem reload_of_inv (s : sst) (hinv : disk_meta_inv s.meta s.disk)
    (dir : List (String × sst_file)) (hp : dir.Perm s.disk) :
    ∃ s2, sst_new dir = some s2
      ∧ (s2.meta.nodes.map meta_triple).Perm (s.meta.nodes.map meta_triple) := by
  have hnames := inv_disk_names _ _ hinv
  obtain ⟨ha, hb, hgood⟩ := hinv
  have hreg : ∀ p ∈ dir, registered p = true := by
    intro p hpm
    have hps : p ∈ s.disk := hp.mem_iff.1 hpm
    have h1 : p.1 ∈ (List.range s.meta.size).map sst_name := by
      rw [← hnames]; exact List.mem_map.2 ⟨p, hps, rfl⟩
    obtain ⟨k, -, hk⟩ := List.mem_map.1 h1
    simp only [registered, Bool.and_eq_true, decide_eq_true_eq]
    exact ⟨by rw [← hk]; exact has_sst_sst_name k, (hgood p hps).2⟩
  cases hl : _sst_load_loop dir meta_new with
  | none =>
    exfalso
    obtain ⟨p, hpm, -, hcrc⟩ := (sst_load_loop_none dir meta_new).1 hl
    exact hcrc (hgood p (hp.mem_iff.1 hpm)).1
  | some m' =>
    refine ⟨{ name := "", meta := m', mutexer_lsn := -1, bloom := [], disk := dir }, ?_, ?_⟩
    · simp only [sst_new, _sst_load, hl]
    · obtain ⟨-, h2⟩ := sst_load_loop_some dir meta_new m' hl
      simp only
      rw [h2, List.filter_eq_self.2 hreg, ← ha]
      simpa [meta_new] using hp.map file_triple

/-! ### Further facts about the write pass and the reachable states -/

theorem write_loop_rest (max_len : Nat) :
    ∀ (n : Nat) (x : List skipnode) (j c : Nat) (last : Option skipnode) (blks : List Nat)
      (r : List Nat × Nat × Option skipnode × List skipnode),
      _write_mmap_loop max_len n x j c last blks = some r → r.2.2.2 = x.drop n := by
  intro n
  induction n with
  | zero =>
    intro x j c last blks r h
    simp only [_write_mmap_loop, Option.some.injEq] at h
    subst h
    rfl
  | succ n ih =>
    intro x j c last blks r h
    cases x with
    | nil => simp [_write_mmap_loop] at h
    | cons node rest =>
      simp only [_write_mmap_loop] at h
      by_cases hop : node.opt = OPT.ADD
      · rw [if_pos hop] at h
        split at h
        · exact Option.noConfusion h
        exact ih _ _ _ _ _ _ h
      · rw [if_neg hop] at h
        exact ih _ _ _ _ _ _ h

/-- A completed write pass consumed exactly the first `count` records: it
returns the node `count` steps after its start, and the count it stores is the
number of ADD records among those consumed. -/
theorem write_mmap_consumes (cfg : config) (s s' : sst) (x x' : List skipnode) (count : Nat)
    (need_new : Bool) (h : _write_mmap cfg s x count need_new = some (s', x')) :
    count ≤ x.length ∧ x' = x.drop count
      ∧ ∃ f, disk_open s'.disk s.name = some f
          ∧ f.footer.count
              = to_be32 ((x.take count).filter (fun nd => decide (nd.opt = OPT.ADD))).length := by
  unfold _write_mmap at h
  cases hst : _prepare_stats x count with
  | none => simp [hst] at h
  | some st =>
    simp only [hst] at h
    by_cases hz : st.mmap_size = 0
    · simp [hz] at h
    · rw [if_neg hz] at h
      cases hl : _write_mmap_loop st.max_len count x 0 count x.head?
          (List.replicate st.mmap_size 0) with
      | none => simp [hl] at h
      | some r =>
        obtain ⟨blks, cnt, last, xr⟩ := r
        cases last with
        | none => simp [hl] at h
        | some last =>
          simp only [hl, Option.some.injEq, Prod.mk.injEq] at h
          obtain ⟨hlen, hcnt⟩ := write_loop_count _ _ _ _ _ _ _ _ hl
          have hrest := write_loop_rest _ _ _ _ _ _ _ _ hl
          simp only at hcnt hrest
          have htk : (x.take count).length = count := by
            rw [List.length_take]; omega
          have hsum := List.length_eq_length_filter_add (l := x.take count)
            (fun nd => decide (nd.opt = OPT.ADD))
          have hnot : (x.take count).filter (fun nd => decide (nd.opt ≠ OPT.ADD))
              = (x.take count).filter (fun nd => !decide (nd.opt = OPT.ADD)) := by
            congr 1
            funext nd
            simp
          rw [hnot] at hcnt
          refine ⟨hlen, by rw [← h.2, hrest], ?_⟩
          rw [← h.1]
          refine ⟨_, disk_open_write_self _ _ _, ?_⟩
          simp only
          congr 1
          omega

theorem disk_open_none_of_not_mem (d : List (String × sst_file)) (nm : String)
    (h : nm ∉ d.map Prod.fst) : disk_open d nm = none := by
  induction d with
  | nil => rfl
  | cons p rest ih =>
    obtain ⟨n, g⟩ := p
    simp only [List.map_cons, List.mem_cons, not_or] at h
    simp only [disk_open]
    rw [if_neg (fun e => h.1 e.symm), ih h.2]

/-- In a state reached from the empty engine, no file on disk carries a name
that is still to be minted. -/
theorem reachable_names_fresh (cfg : config) (hM : cfg.SST_MAX_COUNT < 2 ^ 31) (s : sst)
    (h : reachable cfg s) (n : Nat) (hn : s.meta.size ≤ n) :
    disk_open s.disk (sst_name n) = none := by
  apply disk_open_none_of_not_mem
  rw [inv_disk_names _ _ (inv_reachable cfg hM s h)]
  intro hmem
  obtain ⟨k, hk, he⟩ := List.mem_map.1 hmem
  have := sst_name_injective _ _ he
  rw [List.mem_range] at hk
  omega

/-- C9: in every state reached from the empty engine by `sst_merge` calls
(`SST_MAX_COUNT` an `int`, below 2^31), the bootstrap over the files on disk,
listed in any order, returns and rebuilds a meta directory with the same
(name, end key, record count) triples as the directory held in memory. -/
theorem C9_reload_rebuilds_directory (cfg : config) (hM : cfg.SST_MAX_COUNT < 2 ^ 31)
    (s : sst) (h : reachable cfg s) (dir : List (String × sst_file)) (hp : dir.Perm s.disk) :
    ∃ s2, sst_new dir = some s2
      ∧ (s2.meta.nodes.map meta_triple).Perm (s.meta.nodes.map meta_triple) :=
  reload_of_inv s (inv_reachable cfg hM s h) dir hp

set_option maxRecDepth 100000 in
/-- C9 at the state reached by two merges (`SST_MAX_COUNT = 4`), which holds
`0.sst` and `1.sst`, with the directory listed in reverse order. -/
theorem C9_reload_rebuilds_directory_witness :
    cfg4.SST_MAX_COUNT < 2 ^ 31
      ∧ sst_new [] = some empty_sst
      ∧ reachable cfg4 sst_c9
      ∧ sst_c9.disk.map Prod.fst = ["0.sst", "1.sst"]
      ∧ sst_c9.disk.reverse.Perm sst_c9.disk
      ∧ ∃ s2, sst_new sst_c9.disk.reverse = some s2
          ∧ (s2.meta.nodes.map meta_triple).Perm (sst_c9.meta.nodes.map meta_triple) := by
  have hr : reachable cfg4 sst_c9 :=
    reachable.merge sst_c9_first sst_c9 batch_c7_new false
      (reachable.merge empty_sst sst_c9_first batch_c7_old false reachable.empty (by decide))
      (by decide)
  exact ⟨by decide, by decide, hr, by decide, List.reverse_perm _,
    C9_reload_rebuilds_directory cfg4 (by decide) sst_c9 hr sst_c9.disk.reverse
      (List.reverse_perm _)⟩

set_option maxRecDepth 100000 in
/-- C10 at two directories: the one whose file has the crc 0 ends the process;
the one that holds `1.sst` with a good footer gives the descriptor of that file. -/
theorem C10_bootstrap_decision_witness :
    _sst_load_loop dir_c10_bad meta_new = none
      ∧ _sst_load_loop dir_c6 meta_new = some sst_c6.meta
      ∧ sst_c6.meta.nodes.map meta_triple = [("1.sst", zero_pad 16 (rep_key 4 'm'), 1)]
      ∧ sst_c6.meta.nodes.map meta_triple
          = meta_new.nodes.map meta_triple ++ (dir_c6.filter registered).map file_triple :=
  ⟨(C10_bootstrap_decision.1 dir_c10_bad meta_new).2
      ⟨dir_c10_bad.head (by decide), by decide, by decide, by decide⟩,
    by decide, by decide,
    (C10_bootstrap_decision.2.1 dir_c6 meta_new sst_c6.meta (by decide)).2⟩

/-! ### Point lookup of a key that is not stored -/

theorem getoff_miss (s : sst) (sk : List Nat) (h : meta_get s.meta sk = none) :
    sst_getoff s sk = some (s, 0) := by
  simp only [sst_getoff, h]

set_option maxRecDepth 100000 in
/-- C11 (the code departs from the claim): when `meta_get` finds no descriptor,
`sst_getoff` returns 0 and leaves the engine as it was. But for a key that a
descriptor covers and the file does not store the result is not 0 in general.
With `0.sst` holding "aaaa" and "bbbb", the lookup of "abbb" reads the length
0x6161 from the first two bytes, skips that many bytes and takes its second
record at offset 24939 of a 16 byte area: the scan leaves the mapped area.
With `0.sst` holding "", "aaaa" and "bbbb", the length read is 0, `memcmp` over
0 bytes is 0, and the lookup of "abbb" returns 483681. -/
theorem C11_lookup_of_absent_key :
    (∀ (s : sst) (sk : List Nat), meta_get s.meta sk = none → sst_getoff s sk = some (s, 0))
      ∧ (sst_merge cfg4 empty_sst batch_c11 false).map
          (fun s => (stored_keys s "0.sst", (meta_get s.meta key_abbb).map (fun d => d.index_name)))
        = some (some [rep_key 4 'a', rep_key 4 'b'], some "0.sst")
      ∧ ((sst_merge cfg4 empty_sst batch_c11 false).bind (fun s => sst_getoff s key_abbb)).map
          Prod.snd = none
      ∧ (sst_merge cfg4 empty_sst batch_c11_empty false).map
          (fun s => (s.disk.map (fun p => p.2.blocks),
            (meta_get s.meta key_abbb).map (fun d => d.index_name)))
        = some ([[0, 0, 0, 0, 0, 0, 0, 7, 97, 97, 97, 97, 0, 0, 0, 1, 98, 98, 98, 98, 0, 0, 0, 2]],
            some "0.sst")
      ∧ ((sst_merge cfg4 empty_sst batch_c11_empty false).bind
          (fun s => sst_getoff s key_abbb)).map Prod.snd = some 483681 :=
  ⟨getoff_miss, by decide, by decide, by decide, by decide⟩

/-! ### The stats pass -/

set_option maxRecDepth 100000 in
/-- C13 (the code departs from the claim): for ADD "aaaa", ADD "bbbb",
DEL "cccc" with `count = 3` the stats pass counts "bbbb" twice: `mmap_size` is
24 = (4 + 4) * 3, while two of the three records are ADD records and the write
pass writes two blocks (footer count 2) into the 24 byte area. -/
theorem C13_stats_counts_a_record_twice :
    _prepare_stats batch_c13 3 = some ⟨24, 4, 0⟩
      ∧ add_count batch_c13 3 = 2
      ∧ max_add_klen batch_c13 3 = 4
      ∧ (_write_mmap cfg4 { empty_sst with name := "0.sst" } batch_c13 3 true).map
          (fun r => r.1.disk.map (fun p => (p.2.blocks, p.2.footer.count, p.2.footer.size)))
        = some [([97, 97, 97, 97, 0, 0, 0, 1, 98, 98, 98, 98, 0, 0, 0, 2, 0, 0, 0, 0, 0, 0, 0, 0],
                 [0, 0, 0, 2], [0, 0, 0, 24])] := by
  decide

set_option maxRecDepth 100000 in
/-- C14 (the code departs from the claim): for ADD "aaaa", ADD "bbbb",
ADD "cccccccc" with `count = 3` the stats pass never visits the last record:
`max_len` is 4, while the longest ADD key has 8 bytes, so the key that the
write pass copies into the third block is longer than the block's key field. -/
theorem C14_stats_misses_last_key :
    (_prepare_stats batch_c2 3).map (fun st => st.max_len) = some 4
      ∧ max_add_klen batch_c2 3 = 8
      ∧ batch_c2.map (fun n => (n.opt, n.klen)) = [(OPT.ADD, 4), (OPT.ADD, 4), (OPT.ADD, 8)] := by
  decide

/-! ### The chunk lists of the two flush functions -/

theorem new_list_run (cfg : config) (hM : 0 < cfg.SST_MAX_COUNT) (count : Nat) (s : sst)
    (x : List skipnode) :
    _flush_new_list cfg s x count
      = (write_new_files cfg (new_list_chunks cfg count) s x).map Prod.fst := by
  rw [flush_new_list_eq cfg s x count hM]
  unfold new_list_chunks
  by_cases h : count ≤ 2 * cfg.SST_MAX_COUNT
  · rw [if_pos h, if_pos (by omega)]
  · rw [if_neg h, if_neg (by omega)]

theorem merge_list_run (cfg : config) (count : Nat) (s : sst) (x : List skipnode)
    (mi : Option meta_node) :
    _flush_merge_list cfg s x count mi
      = write_merge_files cfg (merge_list_chunks cfg count) s x mi := by
  rw [flush_merge_list_eq]
  unfold merge_list_chunks
  by_cases h : count ≤ 2 * cfg.SST_MAX_COUNT
  · rw [if_pos h, if_pos (by omega)]
    simp only [write_merge_files]
    cases _write_gated cfg s x count mi with
    | none => rfl
    | some r => rfl
  · rw [if_neg h, if_neg (by omega)]
    simp only [write_merge_files]
    rw [Nat.mul_comm cfg.SST_MAX_COUNT 2]

theorem new_list_chunks_spill (cfg : config) (count : Nat) (h : 2 * cfg.SST_MAX_COUNT < count) :
    new_list_chunks cfg count
      = List.replicate (count / cfg.SST_MAX_COUNT - 1) cfg.SST_MAX_COUNT
          ++ [cfg.SST_MAX_COUNT + count % cfg.SST_MAX_COUNT] := by
  unfold new_list_chunks
  rw [if_neg (by omega)]

theorem merge_list_chunks_spill (cfg : config) (count : Nat)
    (h : 2 * cfg.SST_MAX_COUNT < count) :
    merge_list_chunks cfg count
      = cfg.SST_MAX_COUNT
          :: (List.replicate ((count - cfg.SST_MAX_COUNT * 2) / cfg.SST_MAX_COUNT)
                cfg.SST_MAX_COUNT
              ++ [count % cfg.SST_MAX_COUNT + cfg.SST_MAX_COUNT]) := by
  unfold merge_list_chunks
  rw [if_neg (by omega)]

theorem spill_quotient (M count : Nat) (hM : 0 < M) (h : 2 * M < count) :
    (count - M * 2) / M + 2 = count / M := by
  have h1 : count = (count - M * 2) + 2 * M := by omega
  conv_rhs => rw [h1]
  rw [Nat.add_mul_div_right _ _ hM]

theorem new_list_chunks_le (cfg : config) (hM : 0 < cfg.SST_MAX_COUNT) (count c : Nat)
    (hc : c ∈ new_list_chunks cfg count) : c ≤ 2 * cfg.SST_MAX_COUNT := by
  by_cases h : count ≤ 2 * cfg.SST_MAX_COUNT
  · unfold new_list_chunks at hc
    rw [if_pos (by omega), List.mem_singleton] at hc
    omega
  · rw [new_list_chunks_spill cfg count (by omega)] at hc
    have := Nat.mod_lt count hM
    rcases List.mem_append.1 hc with h1 | h1
    · rw [(List.mem_replicate.1 h1).2]; omega
    · rw [List.mem_singleton] at h1; omega

theorem merge_list_chunks_le (cfg : config) (hM : 0 < cfg.SST_MAX_COUNT) (count c : Nat)
    (hc : c ∈ merge_list_chunks cfg count) : c ≤ 2 * cfg.SST_MAX_COUNT := by
  by_cases h : count ≤ 2 * cfg.SST_MAX_COUNT
  · unfold merge_list_chunks at hc
    rw [if_pos (by omega), List.mem_singleton] at hc
    omega
  · rw [merge_list_chunks_spill cfg count (by omega)] at hc
    have := Nat.mod_lt count hM
    rcases List.mem_cons.1 hc with h0 | h0
    · omega
    · rcases List.mem_append.1 h0 with h1 | h1
      · rw [(List.mem_replicate.1 h1).2]; omega
      · rw [List.mem_singleton] at h1; omega

/-- C12: for `SST_MAX_COUNT = M > 0`, `_flush_new_list` and `_flush_merge_list`
are the write passes with the counts of `new_list_chunks` and
`merge_list_chunks`; every such count is at most `2 * M`; and when
`count > 2 * M` the in-place pass and every pass but the last receive `M`
records and the last receives `M + count % M < 2 * M` records. -/
theorem C12_write_pass_size_bound (cfg : config) (hM : 0 < cfg.SST_MAX_COUNT) (count : Nat) :
    (∀ (s : sst) (x : List skipnode),
        _flush_new_list cfg s x count
          = (write_new_files cfg (new_list_chunks cfg count) s x).map Prod.fst)
      ∧ (∀ (s : sst) (x : List skipnode) (mi : Option meta_node),
          _flush_merge_list cfg s x count mi
            = write_merge_files cfg (merge_list_chunks cfg count) s x mi)
      ∧ (∀ c ∈ new_list_chunks cfg count, c ≤ 2 * cfg.SST_MAX_COUNT)
      ∧ (∀ c ∈ merge_list_chunks cfg count, c ≤ 2 * cfg.SST_MAX_COUNT)
      ∧ (2 * cfg.SST_MAX_COUNT < count →
          new_list_chunks cfg count
              = List.replicate (count / cfg.SST_MAX_COUNT - 1) cfg.SST_MAX_COUNT
                  ++ [cfg.SST_MAX_COUNT + count % cfg.SST_MAX_COUNT]
            ∧ merge_list_chunks cfg count
              = cfg.SST_MAX_COUNT
                  :: (List.replicate (count / cfg.SST_MAX_COUNT - 2) cfg.SST_MAX_COUNT
                      ++ [cfg.SST_MAX_COUNT + count % cfg.SST_MAX_COUNT])
            ∧ cfg.SST_MAX_COUNT + count % cfg.SST_MAX_COUNT < 2 * cfg.SST_MAX_COUNT) := by
  refine ⟨new_list_run cfg hM count, merge_list_run cfg count,
    new_list_chunks_le cfg hM count, merge_list_chunks_le cfg hM count, ?_⟩
  intro h
  refine ⟨new_list_chunks_spill cfg count h, ?_, ?_⟩
  · rw [merge_list_chunks_spill cfg count h]
    have := spill_quotient cfg.SST_MAX_COUNT count hM h
    have h2 : (count - cfg.SST_MAX_COUNT * 2) / cfg.SST_MAX_COUNT
        = count / cfg.SST_MAX_COUNT - 2 := Nat.eq_sub_of_add_eq this
    rw [h2, Nat.add_comm (count % cfg.SST_MAX_COUNT)]
  · have := Nat.mod_lt count hM
    omega

set_option maxRecDepth 100000 in
/-- C12 at `SST_MAX_COUNT = 4`, `count = 10`: both functions pass 4 and then 6
records, and at `count = 7` one pass of 7 records. -/
theorem C12_write_pass_size_bound_witness :
    0 < cfg4.SST_MAX_COUNT
      ∧ new_list_chunks cfg4 10 = [4, 6] ∧ merge_list_chunks cfg4 10 = [4, 6]
      ∧ new_list_chunks cfg4 7 = [7] ∧ merge_list_chunks cfg4 7 = [7]
      ∧ (∀ c ∈ new_list_chunks cfg4 10, c ≤ 2 * cfg4.SST_MAX_COUNT)
      ∧ (∀ c ∈ merge_list_chunks cfg4 10, c ≤ 2 * cfg4.SST_MAX_COUNT) :=
  ⟨by decide, by decide, by decide, by decide, by decide,
    (C12_write_pass_size_bound cfg4 (by decide) 10).2.2.1,
    (C12_write_pass_size_bound cfg4 (by decide) 10).2.2.2.1⟩

/-! ### Chunking conserves the records -/

theorem spill_div_ge (M count : Nat) (hM : 0 < M) (h : 2 * M < count) : 2 ≤ count / M :=
  (Nat.le_div_iff_mul_le hM).2 (by omega)

theorem new_list_chunks_sum (cfg : config) (hM : 0 < cfg.SST_MAX_COUNT) (count : Nat) :
    (new_list_chunks cfg count).sum = count := by
  by_cases h : count ≤ 2 * cfg.SST_MAX_COUNT
  · unfold new_list_chunks
    rw [if_pos (by omega)]
    simp
  · rw [new_list_chunks_spill cfg count (by omega)]
    have hq := spill_div_ge cfg.SST_MAX_COUNT count hM (by omega)
    obtain ⟨q, hq'⟩ : ∃ q, count / cfg.SST_MAX_COUNT = q + 1 := ⟨count / cfg.SST_MAX_COUNT - 1, by omega⟩
    have hdm := Nat.div_add_mod count cfg.SST_MAX_COUNT
    rw [hq', Nat.mul_succ] at hdm
    simp only [List.sum_append, List.sum_replicate, smul_eq_mul, List.sum_cons, List.sum_nil,
      hq', Nat.add_sub_cancel]
    rw [Nat.mul_comm q]
    omega

theorem merge_list_chunks_sum (cfg : config) (hM : 0 < cfg.SST_MAX_COUNT) (count : Nat) :
    (merge_list_chunks cfg count).sum = count := by
  by_cases h : count ≤ 2 * cfg.SST_MAX_COUNT
  · unfold merge_list_chunks
    rw [if_pos (by omega)]
    simp
  · rw [merge_list_chunks_spill cfg count (by omega)]
    have hq := spill_quotient cfg.SST_MAX_COUNT count hM (by omega)
    have hdm := Nat.div_add_mod count cfg.SST_MAX_COUNT
    rw [← hq, Nat.mul_add] at hdm
    simp only [List.sum_append, List.sum_replicate, smul_eq_mul, List.sum_cons, List.sum_nil]
    rw [Nat.mul_comm ((count - cfg.SST_MAX_COUNT * 2) / cfg.SST_MAX_COUNT)]
    omega

theorem write_mmap_returns (cfg : config) (s s' : sst) (x x' : List skipnode) (c : Nat)
    (need_new : Bool) (h : _write_mmap cfg s x c need_new = some (s', x')) :
    c ≤ x.length ∧ x' = x.drop c :=
  ⟨(write_mmap_consumes cfg s s' x x' c need_new h).1,
    (write_mmap_consumes cfg s s' x x' c need_new h).2.1⟩

theorem write_gated_returns (cfg : config) (s : sst) (x : List skipnode) (c : Nat)
    (mi : Option meta_node) (r : sst × List skipnode)
    (h : _write_gated cfg s x c mi = some r) : c ≤ x.length ∧ r.2 = x.drop c := by
  cases mi with
  | none =>
    simp only [_write_gated] at h
    exact write_mmap_returns cfg s r.1 x r.2 c false h
  | some m =>
    simp only [_write_gated] at h
    cases hw : _write_mmap cfg { s with mutexer_lsn := m.lsn } x c false with
    | none => simp [hw] at h
    | some r1 =>
      simp only [hw, Option.some.injEq] at h
      subst h
      exact write_mmap_returns cfg _ r1.1 x r1.2 c false hw

theorem write_new_files_returns (cfg : config) :
    ∀ (cs : List Nat) (s : sst) (x : List skipnode) (r : sst × List skipnode),
      write_new_files cfg cs s x = some r → cs.sum ≤ x.length ∧ r.2 = x.drop cs.sum := by
  intro cs
  induction cs with
  | nil =>
    intro s x r h
    simp only [write_new_files, Option.some.injEq] at h
    subst h
    simp
  | cons c cs ih =>
    intro s x r h
    simp only [write_new_files] at h
    cases hw : _write_mmap cfg { s with name := sst_name s.meta.size } x c true with
    | none => simp [hw] at h
    | some r1 =>
      obtain ⟨s1, x1⟩ := r1
      simp only [hw] at h
      obtain ⟨h1, h2⟩ := write_mmap_returns cfg _ s1 x x1 c true hw
      obtain ⟨h3, h4⟩ := ih s1 x1 r h
      subst h2
      rw [List.length_drop] at h3
      refine ⟨by simp only [List.sum_cons]; omega, ?_⟩
      rw [h4, List.drop_drop, List.sum_cons, Nat.add_comm]

theorem chunk_segments_flatten :
    ∀ (cs : List Nat) (x : List skipnode), (chunk_segments cs x).flatten = x.take cs.sum := by
  intro cs
  induction cs with
  | nil => intro x; simp [chunk_segments]
  | cons c cs ih =>
    intro x
    simp only [chunk_segments, List.flatten_cons, ih, List.sum_cons]
    rw [List.take_add]

/-- C19: for `SST_MAX_COUNT = M > 0` the counts of the write passes of
`_flush_new_list` sum to `count`, and so do those of `_flush_merge_list`; a
write pass that completes has consumed the first `c` records of the list it
was given and returns the node `c` steps further, where the next pass starts;
so the segments the passes consume, put together in order, are the first
`count` records of the input. -/
theorem C19_chunking_conserves_records (cfg : config) (hM : 0 < cfg.SST_MAX_COUNT)
    (count : Nat) :
    (∀ (s : sst) (x : List skipnode),
        _flush_new_list cfg s x count
          = (write_new_files cfg (new_list_chunks cfg count) s x).map Prod.fst)
      ∧ (∀ (s : sst) (x : List skipnode) (mi : Option meta_node),
          _flush_merge_list cfg s x count mi
            = write_merge_files cfg (merge_list_chunks cfg count) s x mi)
      ∧ (new_list_chunks cfg count).sum = count
      ∧ (merge_list_chunks cfg count).sum = count
      ∧ (∀ (s s' : sst) (x x' : List skipnode) (c : Nat) (need_new : Bool),
          _write_mmap cfg s x c need_new = some (s', x') → c ≤ x.length ∧ x' = x.drop c)
      ∧ (∀ (s : sst) (x : List skipnode) (c : Nat) (mi : Option meta_node)
          (r : sst × List skipnode),
          _write_gated cfg s x c mi = some r → c ≤ x.length ∧ r.2 = x.drop c)
      ∧ (∀ (cs : List Nat) (s : sst) (x : List skipnode) (r : sst × List skipnode),
          write_new_files cfg cs s x = some r → cs.sum ≤ x.length ∧ r.2 = x.drop cs.sum)
      ∧ (∀ x : List skipnode,
          (chunk_segments (new_list_chunks cfg count) x).flatten = x.take count
            ∧ (chunk_segments (merge_list_chunks cfg count) x).flatten = x.take count) := by
  refine ⟨new_list_run cfg hM count, merge_list_run cfg count, new_list_chunks_sum cfg hM count,
    merge_list_chunks_sum cfg hM count, write_mmap_returns cfg, write_gated_returns cfg,
    write_new_files_returns cfg, ?_⟩
  intro x
  rw [chunk_segments_flatten, chunk_segments_flatten, new_list_chunks_sum cfg hM count,
    merge_list_chunks_sum cfg hM count]
  exact ⟨rfl, rfl⟩

set_option maxRecDepth 100000 in
/-- C19 at `SST_MAX_COUNT = 4`, `count = 10`: the counts 4 and 6 sum to 10 on
both paths. -/
theorem C19_chunking_conserves_records_witness :
    0 < cfg4.SST_MAX_COUNT
      ∧ new_list_chunks cfg4 10 = [4, 6] ∧ merge_list_chunks cfg4 10 = [4, 6]
      ∧ (new_list_chunks cfg4 10).sum = 10 ∧ (merge_list_chunks cfg4 10).sum = 10 :=
  ⟨by decide, by decide, by decide,
    (C19_chunking_conserves_records cfg4 (by decide) 10).2.2.1,
    (C19_chunking_conserves_records cfg4 (by decide) 10).2.2.2.1⟩

/-! ### The new path against the merge path -/

/-- C20 (amended): for `SST_MAX_COUNT = M > 0` and `count > 2 * M` the two
flush functions pass the same sequence of record counts to their write passes,
`count / M - 1` times `M` and then `M + count % M`; the arithmetic differs in
that the merge path writes its first chunk in place before its loop, which
runs `(count - 2 * M) / M = count / M - 2` times, one time fewer than the loop
of the new path. -/
theorem C20_same_chunks_on_both_paths (cfg : config) (hM : 0 < cfg.SST_MAX_COUNT)
    (count : Nat) (h : 2 * cfg.SST_MAX_COUNT < count) :
    (∀ (s : sst) (x : List skipnode),
        _flush_new_list cfg s x count
          = (write_new_files cfg (new_list_chunks cfg count) s x).map Prod.fst)
      ∧ (∀ (s : sst) (x : List skipnode) (mi : Option meta_node),
          _flush_merge_list cfg s x count mi
            = write_merge_files cfg (merge_list_chunks cfg count) s x mi)
      ∧ new_list_chunks cfg count = merge_list_chunks cfg count
      ∧ new_list_chunks cfg count
          = List.replicate (count / cfg.SST_MAX_COUNT - 1) cfg.SST_MAX_COUNT
              ++ [cfg.SST_MAX_COUNT + count % cfg.SST_MAX_COUNT]
      ∧ (count - cfg.SST_MAX_COUNT * 2) / cfg.SST_MAX_COUNT + 1
          = count / cfg.SST_MAX_COUNT - 1 := by
  have hq := spill_quotient cfg.SST_MAX_COUNT count hM h
  have h2 : count / cfg.SST_MAX_COUNT - 1
      = (count - cfg.SST_MAX_COUNT * 2) / cfg.SST_MAX_COUNT + 1 := by
    rw [← hq]
    rfl
  refine ⟨new_list_run cfg hM count, merge_list_run cfg count, ?_,
    new_list_chunks_spill cfg count h, h2.symm⟩
  rw [new_list_chunks_spill cfg count h, merge_list_chunks_spill cfg count h]
  rw [h2, List.replicate_succ, List.cons_append, Nat.add_comm (count % cfg.SST_MAX_COUNT)]

set_option maxRecDepth 100000 in
/-- C20 (amended) at `SST_MAX_COUNT = 4`, `count = 10`: both paths pass 4 and
then 6 records. -/
theorem C20_same_chunks_on_both_paths_witness :
    0 < cfg4.SST_MAX_COUNT ∧ 2 * cfg4.SST_MAX_COUNT < 10
      ∧ new_list_chunks cfg4 10 = merge_list_chunks cfg4 10
      ∧ new_list_chunks cfg4 10 = [4, 6] :=
  ⟨by decide, by decide,
    (C20_same_chunks_on_both_paths cfg4 (by decide) 10 (by decide)).2.2.1, by decide⟩

set_option maxRecDepth 100000 in
/-- C20 (as stated, refuted): with `SST_MAX_COUNT = 4` and `count = 10 > 8`,
`_flush_new_list` is the write passes with the counts 4, 6, and
`_flush_merge_list` is the write passes with the counts 4 (in place), 6: the
two sequences of record counts are the same, they do not differ by a chunk. -/
theorem C20_sequences_do_not_differ :
    2 * cfg4.SST_MAX_COUNT < 10
      ∧ (∀ (s : sst) (x : List skipnode),
          _flush_new_list cfg4 s x 10 = (write_new_files cfg4 [4, 6] s x).map Prod.fst)
      ∧ (∀ (s : sst) (x : List skipnode) (mi : Option meta_node),
          _flush_merge_list cfg4 s x 10 mi = write_merge_files cfg4 [4, 6] s x mi) :=
  ⟨by decide, fun s x => new_list_run cfg4 (by decide) 10 s x,
    fun s x mi => merge_list_run cfg4 10 s x mi⟩

/-! ### The miss branch of `_flush_list` -/

theorem flush_list_loop_miss (cfg : config) (x : List skipnode) (count : Nat) (cur : skipnode)
    (rest : List skipnode) (pos : Nat) (s : sst) (merge : Option (List skipnode))
    (mi : Option meta_node) (h : meta_get s.meta cur.key = none) :
    _flush_list_loop cfg x count (cur :: rest) pos s merge mi
      = (_flush_pending cfg s merge none).bind
          (fun s1 => _flush_new_list cfg s1 x (count - pos)) := by
  simp only [_flush_list_loop, h]
  cases _flush_pending cfg s merge none with
  | none => rfl
  | some s1 => rfl

set_option maxRecDepth 100000 in
/-- C15 (the code departs from the claim): on a miss the loop flushes the
pending buffer with no descriptor and then calls `_flush_new_list` with
`count - pos` and with `x`, the first record of the batch, not with `cur`. For
the engine holding `0.sst` ("bbbb" to "hhhh") and the batch "cccc", "nnnn",
"oooo" the first miss is "nnnn" at `pos = 1`: the new file receives the two
records from "cccc" on, where the two records from `cur` on are "nnnn", "oooo". -/
theorem C15_miss_branch_restarts_at_head :
    (∀ (cfg : config) (x : List skipnode) (count : Nat) (cur : skipnode) (rest : List skipnode)
        (pos : Nat) (s : sst) (merge : Option (List skipnode)) (mi : Option meta_node),
        meta_get s.meta cur.key = none →
          _flush_list_loop cfg x count (cur :: rest) pos s merge mi
            = (_flush_pending cfg s merge none).bind
                (fun s1 => _flush_new_list cfg s1 x (count - pos)))
      ∧ (meta_get sst_c9_first.meta (rep_key 4 'c')).map (fun d => d.index_name) = some "0.sst"
      ∧ meta_get sst_c9_first.meta (rep_key 4 'n') = none
      ∧ _flush_merge_list cfg4 sst_c9_first merge_c15 merge_c15.length none = some sst_c15_flushed
      ∧ _flush_list cfg4 sst_c9_first batch_c7_new 3
          = _flush_new_list cfg4 sst_c15_flushed batch_c7_new (3 - 1)
      ∧ (_flush_list cfg4 sst_c9_first batch_c7_new 3).map (fun s => stored_keys s "1.sst")
          = some (some [rep_key 4 'c', rep_key 4 'n'])
      ∧ (_flush_new_list cfg4 sst_c15_flushed (batch_c7_new.drop 1) (3 - 1)).map
          (fun s => stored_keys s "1.sst")
          = some (some [rep_key 4 'n', rep_key 4 'o']) :=
  ⟨flush_list_loop_miss, by decide, by decide, by decide, by decide, by decide, by decide⟩

set_option maxRecDepth 100000 in
/-- C16 (the code departs from the claim): the engine holds `0.sst` with the
keys "bbbb", "dddd", "ffff", "hhhh"; the batch ADD "cccc", ADD "nnnn",
ADD "oooo" is strictly ascending and none of its keys is stored. After
`sst_merge` the files are `0.sst` and `1.sst`, and neither stores "oooo". -/
theorem C16_merge_loses_a_record :
    sst_merge cfg4 empty_sst batch_c7_old false = some sst_c9_first
      ∧ sst_c9_first.meta.size = 1
      ∧ stored_keys sst_c9_first "0.sst"
          = some [rep_key 4 'b', rep_key 4 'd', rep_key 4 'f', rep_key 4 'h']
      ∧ batch_c7_new.map (fun n => (n.key, n.opt))
          = [(rep_key 4 'c', OPT.ADD), (rep_key 4 'n', OPT.ADD), (rep_key 4 'o', OPT.ADD)]
      ∧ (sst_merge cfg4 sst_c9_first batch_c7_new false).map
          (fun s => s.disk.map (fun p => (p.1, stored_keys s p.1)))
          = some [("0.sst", some [rep_key 4 'b', rep_key 4 'c', rep_key 4 'd', rep_key 4 'f',
                                  rep_key 4 'h']),
                  ("1.sst", some [rep_key 4 'c', rep_key 4 'n'])]
      ∧ rep_key 4 'o' ∉ [rep_key 4 'b', rep_key 4 'c', rep_key 4 'd', rep_key 4 'f',
                          rep_key 4 'h']
      ∧ rep_key 4 'o' ∉ [rep_key 4 'c', rep_key 4 'n'] := by
  decide

/-! ### The gate of the in-place rewrite -/

theorem flush_list_gates_erase (cfg : config) (x : List skipnode) (count : Nat) :
    ∀ (cur : List skipnode) (pos : Nat) (s : sst) (merge : Option (List skipnode))
      (mi : Option meta_node) (log : List gate_entry),
      (_flush_list_gates cfg x count cur pos s merge mi log).map Prod.fst
        = _flush_list_loop cfg x count cur pos s merge mi := by
  intro cur
  induction cur with
  | nil =>
    intro pos s merge mi log
    simp only [_flush_list_gates, _flush_list_loop]
    cases _flush_pending cfg s merge mi with
    | none => rfl
    | some s' => rfl
  | cons c rest ih =>
    intro pos s merge mi log
    simp only [_flush_list_gates, _flush_list_loop]
    cases meta_get s.meta c.key with
    | none =>
      simp only
      cases _flush_pending cfg s merge none with
      | none => rfl
      | some s1 =>
        simp only
        cases _flush_new_list cfg s1 x (count - pos) with
        | none => rfl
        | some s' => rfl
    | some d =>
      simp only
      by_cases hn : s.name = d.index_name
      · rw [if_pos hn, if_pos hn]
        cases merge with
        | none =>
          simp only
          cases _read_mmap s count with
          | none => rfl
          | some m => exact ih _ _ _ _ _
        | some m => exact ih _ _ _ _ _
      · rw [if_neg hn, if_neg hn]
        cases _flush_pending cfg s merge (some d) with
        | none => rfl
        | some s1 =>
          simp only
          cases _read_mmap { s1 with name := d.index_name } count with
          | none => rfl
          | some m => exact ih _ _ _ _ _

set_option maxRecDepth 100000 in
/-- C17 (the code departs from the claim): the engine holds `0.sst` (lsn 0) and
`1.sst` (lsn 1); the batch is ADD "cccc", which belongs to `0.sst`, and
ADD "llll", which belongs to `1.sst`. When the walk reaches "llll" the buffer
of `0.sst` is flushed with the descriptor just found, that of `1.sst`: during
the in-place rewrite of `0.sst` the gate holds the lsn 1, not 0. The last
flush, of `1.sst`, holds 1, and `mutexer.lsn` is −1 at the end. -/
theorem C17_gate_names_the_next_file :
    (∀ (cfg : config) (x : List skipnode) (count : Nat) (cur : List skipnode) (pos : Nat)
        (s : sst) (merge : Option (List skipnode)) (mi : Option meta_node)
        (log : List gate_entry),
        (_flush_list_gates cfg x count cur pos s merge mi log).map Prod.fst
          = _flush_list_loop cfg x count cur pos s merge mi)
      ∧ sst_merge cfg4 empty_sst batch_c17_old false = some sst_c17
      ∧ sst_c17.meta.nodes.map (fun d => (d.index_name, cstr d.end_key, d.lsn))
          = [("0.sst", rep_key 4 'h', 0), ("1.sst", rep_key 4 'q', 1)]
      ∧ (_flush_list_gates cfg4 batch_c17_new 2 batch_c17_new 0 sst_c17 none none []).map
          Prod.snd
          = some [⟨"0.sst", 1, some 0⟩, ⟨"1.sst", 1, some 1⟩]
      ∧ (sst_merge cfg4 sst_c17 batch_c17_new false).map (fun s => s.mutexer_lsn) = some (-1)
      ∧ (sst_merge cfg4 sst_c17 batch_c17_new false).map
          (fun s => s.disk.map (fun p => (p.1, stored_keys s p.1)))
          = some [("0.sst", some [rep_key 4 'b', rep_key 4 'c', rep_key 4 'd', rep_key 4 'f',
                                  rep_key 4 'h']),
                  ("1.sst", some [rep_key 4 'l', rep_key 4 'm', rep_key 4 'n', rep_key 4 'o',
                                  rep_key 4 'p', rep_key 4 'q'])] :=
  ⟨flush_list_gates_erase, by decide, by decide, by decide, by decide, by decide⟩

/-! ### The merge-base scan after the write pass -/

theorem poke_nil (buf : List Nat) : poke buf 0 [] = buf := by
  cases buf <;> rfl

theorem poke_append_left (pre buf d : List Nat) :
    poke (pre ++ buf) pre.length d = pre ++ poke buf 0 d := by
  induction pre with
  | nil => rfl
  | cons p ps ih =>
    simp only [List.cons_append, List.length_cons, poke]
    exact congrArg (List.cons p) ih

theorem poke_cover : ∀ (a b d : List Nat), d.length = a.length → poke (a ++ b) 0 d = d ++ b := by
  intro a
  induction a with
  | nil =>
    intro b d h
    have : d = [] := List.eq_nil_of_length_eq_zero h
    subst this
    exact poke_nil b
  | cons a0 as ih =>
    intro b d h
    cases d with
    | nil => simp at h
    | cons d0 ds =>
      simp only [List.cons_append, poke]
      exact congrArg (List.cons d0) (ih b ds (by simpa using h))

theorem zero_pad_eq (n : Nat) (s : List Nat) (h : s.length ≤ n) :
    zero_pad n s = s ++ List.replicate (n - s.length) 0 := by
  unfold zero_pad
  apply List.take_of_length_le
  simp only [List.length_append, List.length_replicate]
  omega

theorem zero_pad_length (n : Nat) (s : List Nat) : (zero_pad n s).length = n := by
  simp only [zero_pad, List.length_take, List.length_append, List.length_replicate]
  omega

theorem to_be32_length (v : Nat) : (to_be32 v).length = 4 := rfl

theorem block_of_length (ml : Nat) (n : skipnode) : (block_of ml n).length = ml + 4 := by
  simp only [block_of, List.length_append, zero_pad_length, to_be32_length]

/-- The three stores of the write loop for one ADD record whose key fits:
the zeroed area of one block becomes the block of the record. -/
theorem write_block (pre z key : List Nat) (v ml : Nat) (hk : key.length ≤ ml) :
    poke (poke (poke (pre ++ (List.replicate (ml + 4) 0 ++ z)) pre.length (List.replicate ml 0))
        pre.length key) (pre.length + ml) (to_be32 v)
      = pre ++ ((zero_pad ml key ++ to_be32 v) ++ z) := by
  have h1 : List.replicate (ml + 4) 0 = List.replicate ml 0 ++ List.replicate 4 0 :=
    List.replicate_add ml 4 0
  have h2 : (List.replicate ml 0 : List Nat)
      = List.replicate key.length 0 ++ List.replicate (ml - key.length) 0 := by
    rw [← List.replicate_add]
    congr 1
    omega
  rw [poke_append_left, h1, List.append_assoc, poke_cover _ _ _ rfl, poke_append_left]
  conv_lhs =>
    rw [h2]
  rw [List.append_assoc, poke_cover _ _ _ (by simp), zero_pad_eq ml key hk]
  have h3 : pre.length + ml = (pre ++ (key ++ List.replicate (ml - key.length) 0)).length := by
    simp only [List.length_append, List.length_replicate]
    omega
  have hbuf : pre ++ (key ++ (List.replicate (ml - key.length) 0 ++ (List.replicate 4 0 ++ z)))
      = (pre ++ (key ++ List.replicate (ml - key.length) 0)) ++ (List.replicate 4 0 ++ z) := by
    simp only [List.append_assoc]
  rw [hbuf, h3, poke_append_left, poke_cover _ _ _ (by simp [to_be32_length])]
  simp only [List.append_assoc]

theorem align4_of_dvd (ml : Nat) (h : ml % 4 = 0) : align4 ml = ml := by
  unfold align4
  omega

theorem le_page_round (n : Nat) : n ≤ page_round n := by
  unfold page_round PAGE_SIZE
  omega

theorem write_loop_step (ml n j count : Nat) (node : skipnode) (rest : List skipnode)
    (last : Option skipnode) (blks : List Nat) (hop : node.opt = OPT.ADD)
    (h4 : align4 ml = ml) (hk : node.klen ≤ ml) (hroom : j * (ml + 4) + (ml + 4) ≤ blks.length) :
    _write_mmap_loop ml (n + 1) (node :: rest) j count last blks
      = _write_mmap_loop ml n rest (j + 1) count (some node)
          (poke (poke (poke blks (j * (ml + 4)) (List.replicate ml 0)) (j * (ml + 4)) node.key)
            (j * (ml + 4) + ml) (to_be32 node.val)) := by
  have hp := le_page_round blks.length
  have hmax : max (ml + 4) node.klen = ml + 4 := Nat.max_eq_left (by omega)
  simp only [_write_mmap_loop, if_pos hop, h4, hmax]
  rw [if_neg (by omega)]

theorem write_loop_all_add (ml : Nat) (h4 : align4 ml = ml) :
    ∀ (x : List skipnode), (∀ n ∈ x, n.opt = OPT.ADD ∧ n.klen ≤ ml) →
      ∀ (pre : List Nat) (j count : Nat) (last : Option skipnode),
        pre.length = j * (ml + 4) →
          ∃ last', (x ≠ [] ∨ last.isSome = true → last'.isSome = true)
            ∧ _write_mmap_loop ml x.length x j count last
                (pre ++ List.replicate (x.length * (ml + 4)) 0)
              = some (pre ++ (x.map (block_of ml)).flatten, count, last', []) := by
  intro x
  induction x with
  | nil =>
    intro _ pre j count last _
    exact ⟨last, fun h => by simpa using h, by simp [_write_mmap_loop]⟩
  | cons node rest ih =>
    intro hx pre j count last hpre
    obtain ⟨hop, hk⟩ := hx node (List.mem_cons_self _ _)
    have hrest : ∀ n ∈ rest, n.opt = OPT.ADD ∧ n.klen ≤ ml :=
      fun n hn => hx n (List.mem_cons_of_mem _ hn)
    have hsplit : List.replicate ((node :: rest).length * (ml + 4)) 0
        = List.replicate (ml + 4) 0 ++ List.replicate (rest.length * (ml + 4)) (0 : Nat) := by
      rw [← List.replicate_add]
      congr 1
      simp only [List.length_cons, Nat.succ_mul]
      omega
    have hroom : j * (ml + 4) + (ml + 4)
        ≤ (pre ++ List.replicate ((node :: rest).length * (ml + 4)) 0).length := by
      simp only [List.length_append, List.length_replicate, List.length_cons, Nat.succ_mul, hpre]
      omega
    simp only [List.length_cons] at hsplit hroom ⊢
    rw [write_loop_step ml rest.length j count node rest last _ hop h4 hk hroom]
    rw [hsplit, ← hpre, write_block pre _ node.key node.val ml hk]
    have hpre' : (pre ++ (zero_pad ml node.key ++ to_be32 node.val)).length
        = (j + 1) * (ml + 4) := by
      simp only [List.length_append, zero_pad_length, to_be32_length, hpre, Nat.succ_mul]
    obtain ⟨last', hl, hloop⟩ := ih hrest (pre ++ (zero_pad ml node.key ++ to_be32 node.val))
      (j + 1) count (some node) hpre'
    refine ⟨last', fun _ => hl (Or.inr rfl), ?_⟩
    rw [← List.append_assoc, hloop]
    simp only [List.map_cons, List.flatten_cons, block_of, List.append_assoc]

theorem mapped_read_mid (f : sst_file) (blk_sizes : Nat) (hp : f.blocks.length ≤ page_round blk_sizes) :
    ∀ (a pre b : List Nat), f.blocks = pre ++ (a ++ b) →
      mapped_read f blk_sizes pre.length a.length = some a := by
  intro a
  induction a with
  | nil =>
    intro pre b _
    rfl
  | cons a0 as ih =>
    intro pre b hf
    have hlen : pre.length < f.blocks.length := by
      rw [hf]
      simp only [List.length_append, List.length_cons]
      omega
    have hb : mapped_byte f blk_sizes pre.length = some a0 := by
      unfold mapped_byte
      have hfile := le_page_round (f.blocks.length + (footer_bytes f.footer).length)
      rw [if_pos ⟨Nat.lt_of_lt_of_le hlen hp, by omega⟩, if_pos hlen, hf,
        List.getElem?_append_right (Nat.le_refl _)]
      simp
    have hr := ih (pre ++ [a0]) b (by rw [hf]; simp)
    simp only [List.length_append, List.length_singleton] at hr
    simp only [List.length_cons, mapped_read, hb, hr]

theorem read_loop_blocks (ml : Nat) (h4 : align4 ml = ml) (f : sst_file) (blk_sizes : Nat)
    (hp : f.blocks.length ≤ page_round blk_sizes) :
    ∀ (ys : List skipnode), (∀ n ∈ ys, n.val < 2 ^ 32) →
      ∀ (pre : List Nat) (i : Nat) (merge : List skipnode),
        f.blocks = pre ++ (ys.map (block_of ml)).flatten →
        pre.length = i * (ml + 4) →
          _read_mmap_loop f blk_sizes ml ys.length i merge
            = some (ys.foldl
                (fun m n => skiplist_insert m (zero_pad ml n.key) n.val OPT.ADD) merge) := by
  intro ys
  induction ys with
  | nil =>
    intro _ pre i merge _ _
    simp [_read_mmap_loop]
  | cons y rest ih =>
    intro hv pre i merge hf hpre
    have hy : y.val < 2 ^ 32 := hv y (List.mem_cons_self _ _)
    simp only [List.map_cons, List.flatten_cons, block_of] at hf
    have hk : mapped_read f blk_sizes (i * (ml + 4)) ml = some (zero_pad ml y.key) := by
      have := mapped_read_mid f blk_sizes hp (zero_pad ml y.key) pre
        (to_be32 y.val ++ (rest.map (block_of ml)).flatten)
        (by rw [hf, List.append_assoc])
      rw [zero_pad_length, hpre] at this
      exact this
    have ho : mapped_read f blk_sizes (i * (ml + 4) + ml) 4 = some (to_be32 y.val) := by
      have := mapped_read_mid f blk_sizes hp (to_be32 y.val) (pre ++ zero_pad ml y.key)
        ((rest.map (block_of ml)).flatten)
        (by rw [hf]; simp only [List.append_assoc])
      rw [List.length_append, zero_pad_length, hpre, to_be32_length] at this
      exact this
    simp only [List.length_cons, _read_mmap_loop, List.foldl_cons, h4, hk, ho]
    rw [from_be32_to_be32, Nat.mod_eq_of_lt hy]
    have hpre' : (pre ++ (zero_pad ml y.key ++ to_be32 y.val)).length = (i + 1) * (ml + 4) := by
      simp only [List.length_append, zero_pad_length, to_be32_length, hpre, Nat.succ_mul]
    exact ih (fun n hn => hv n (List.mem_cons_of_mem _ hn))
      (pre ++ (zero_pad ml y.key ++ to_be32 y.val)) (i + 1)
      (skiplist_insert merge (zero_pad ml y.key) y.val OPT.ADD)
      (by rw [hf]; simp only [List.append_assoc]) hpre'

theorem strcmp_zeros_left : ∀ (a b : List Nat) (k : Nat),
    strcmp (a ++ List.replicate k 0) b = strcmp a b := by
  intro a
  induction a with
  | nil =>
    intro b k
    cases k with
    | zero => rfl
    | succ k =>
      cases b with
      | nil => simp [List.replicate_succ, strcmp]
      | cons b0 bs =>
        simp only [List.nil_append, List.replicate_succ, strcmp]
        by_cases hb : b0 = 0
        · simp [hb]
        · have h1 : ¬ (0 = b0) := fun h => hb h.symm
          have h2 : 0 < b0 := Nat.pos_of_ne_zero hb
          simp [h1, hb, h2]
  | cons a0 as ih =>
    intro b k
    cases b with
    | nil => simp [strcmp]
    | cons b0 bs =>
      simp only [List.cons_append, strcmp]
      have e : strcmp (as.append (List.replicate k 0)) bs = strcmp as bs := ih bs k
      rw [e]

theorem strcmp_zeros_right : ∀ (a b : List Nat) (k : Nat),
    strcmp a (b ++ List.replicate k 0) = strcmp a b := by
  intro a
  induction a with
  | nil =>
    intro b k
    cases b with
    | nil =>
      cases k with
      | zero => rfl
      | succ k => simp [List.replicate_succ, strcmp]
    | cons b0 bs => simp [strcmp]
  | cons a0 as ih =>
    intro b k
    cases b with
    | nil =>
      cases k with
      | zero => rfl
      | succ k =>
        simp only [List.nil_append, List.replicate_succ, strcmp]
        by_cases ha : a0 = 0
        · simp [ha]
        · have h2 : ¬ a0 < 0 := Nat.not_lt_zero a0
          simp [ha, h2]
    | cons b0 bs =>
      simp only [List.cons_append, strcmp]
      have e : strcmp as (bs.append (List.replicate k 0)) = strcmp as bs := ih bs k
      rw [e]

theorem strcmp_zero_pad (ml : Nat) (a b : List Nat) (ha : a.length ≤ ml) (hb : b.length ≤ ml) :
    strcmp (zero_pad ml a) (zero_pad ml b) = strcmp a b := by
  rw [zero_pad_eq ml a ha, zero_pad_eq ml b hb, strcmp_zeros_left, strcmp_zeros_right]

theorem cstr_zero_pad (ml : Nat) (a : List Nat) (ha : a.length ≤ ml) :
    cstr (zero_pad ml a) = cstr a := by
  rw [zero_pad_eq ml a ha]
  unfold cstr
  generalize ml - a.length = k
  induction a with
  | nil =>
    cases k with
    | zero => rfl
    | succ k => simp [List.replicate_succ, List.takeWhile]
  | cons a0 as ih =>
    simp only [List.cons_append, List.takeWhile_cons]
    split
    · rw [ih (by simp only [List.length_cons] at ha; omega)]
    · rfl

theorem skiplist_insert_append (merge : List skipnode) (sk : List Nat) (v : Nat) (o : OPT)
    (h : ∀ m ∈ merge, strcmp m.key sk ≤ 0) :
    skiplist_insert merge sk v o = merge ++ [⟨sk, v, o⟩] := by
  induction merge with
  | nil => rfl
  | cons m rest ih =>
    simp only [skiplist_insert]
    rw [if_pos (h m (List.mem_cons_self _ _)), ih (fun m' hm' => h m' (List.mem_cons_of_mem _ hm'))]
    rfl

theorem insert_all_append (ml : Nat) :
    ∀ (ys merge : List skipnode),
      (∀ m ∈ merge, ∀ y ∈ ys, strcmp m.key (zero_pad ml y.key) ≤ 0) →
      ys.Pairwise (fun a b => strcmp (zero_pad ml a.key) (zero_pad ml b.key) ≤ 0) →
        ys.foldl (fun m n => skiplist_insert m (zero_pad ml n.key) n.val OPT.ADD) merge
          = merge ++ ys.map (padded_node ml) := by
  intro ys
  induction ys with
  | nil => intro merge _ _; simp
  | cons y rest ih =>
    intro merge hm hp
    simp only [List.foldl_cons]
    rw [skiplist_insert_append merge _ _ _ (fun m hmm => hm m hmm y (List.mem_cons_self _ _))]
    rw [List.pairwise_cons] at hp
    rw [ih _ ?_ hp.2]
    · simp only [List.map_cons, List.append_assoc, List.singleton_append, padded_node]
    · intro m hmm y' hy'
      rcases List.mem_append.1 hmm with h1 | h1
      · exact hm m h1 y' (List.mem_cons_of_mem _ hy')
      · simp only [List.mem_singleton] at h1
        subst h1
        exact hp.1 y' hy'

theorem stats_loop_all_add :
    ∀ (n : Nat) (x : List skipnode) (rc : Nat) (goon : Bool) (ml lcp0 : Nat)
      (pre : Option (List Nat)),
      (∀ nd ∈ x, nd.opt = OPT.ADD) → n ≤ x.length →
        ∃ ml' lcp', _prepare_stats_loop n x rc goon ml lcp0 pre = some (rc + n, ml', lcp') := by
  intro n
  induction n with
  | zero =>
    intro x rc goon ml lcp0 pre _ _
    exact ⟨ml, lcp0, by simp [_prepare_stats_loop]⟩
  | succ n ih =>
    intro x rc goon ml lcp0 pre hx hn
    cases x with
    | nil => simp at hn
    | cons node rest =>
      have hop : node.opt = OPT.ADD := hx node (List.mem_cons_self _ _)
      have hrest : ∀ nd ∈ rest, nd.opt = OPT.ADD := fun nd h => hx nd (List.mem_cons_of_mem _ h)
      have hn' : n ≤ rest.length := by simp only [List.length_cons] at hn; omega
      have hn'' : n ≤ (node :: rest).length := by simp only [List.length_cons]; omega
      have harith : rc + 1 + n = rc + (n + 1) := by omega
      simp only [_prepare_stats_loop, if_pos hop]
      cases goon with
      | false =>
        obtain ⟨a, b, h⟩ := ih rest (rc + 1) false (if node.klen > ml then node.klen else ml)
          lcp0 (some node.key) hrest hn'
        exact ⟨a, b, by rw [← harith]; simpa using h⟩
      | true =>
        cases pre with
        | none =>
          obtain ⟨a, b, h⟩ := ih rest (rc + 1) true (if node.klen > ml then node.klen else ml)
            lcp0 (some node.key) hrest hn'
          exact ⟨a, b, by rw [← harith]; simpa using h⟩
        | some p =>
          simp only
          by_cases hk : lcp p node.key = 0
          · rw [if_pos hk]
            obtain ⟨a, b, h⟩ := ih (node :: rest) (rc + 1) false
              (if node.klen > ml then node.klen else ml) lcp0 (some p) hx hn''
            exact ⟨a, b, by rw [← harith]; exact h⟩
          · rw [if_neg hk]
            obtain ⟨a, b, h⟩ := ih rest (rc + 1) true
              (if node.klen > ml then node.klen else ml)
              (if lcp0 > lcp p node.key then lcp p node.key else lcp0) (some node.key) hrest hn'
            exact ⟨a, b, by rw [← harith]; exact h⟩

theorem stats_size_all_add (x : List skipnode) (st : stats)
    (hx : ∀ nd ∈ x, nd.opt = OPT.ADD) (hst : _prepare_stats x x.length = some st) :
    st.mmap_size = (st.max_len + 4) * x.length := by
  unfold _prepare_stats at hst
  obtain ⟨a, b, h⟩ := stats_loop_all_add x.length x 0 true 0 0 none hx (Nat.le_refl _)
  rw [h] at hst
  simp only [Nat.zero_add, Option.some.injEq] at hst
  rw [← hst]

theorem blocks_length (ml : Nat) (x : List skipnode) :
    ((x.map (block_of ml)).flatten).length = x.length * (ml + 4) := by
  induction x with
  | nil => simp
  | cons n rest ih =>
    simp only [List.map_cons, List.flatten_cons, List.length_append, block_of_length, ih,
      List.length_cons, Nat.succ_mul]
    omega

/-- Writing a list of ADD records whose keys fit the `max_len` of the stats
pass, with `max_len` a multiple of four, and scanning the file again gives the
records in order, each with its key zero-padded to `max_len`. -/
theorem write_then_read (cfg : config) (s : sst) (x : List skipnode) (need_new : Bool)
    (c : Nat) (st : stats) (hne : x ≠ [])
    (hadd : ∀ n ∈ x, n.opt = OPT.ADD)
    (hasc : x.Pairwise (fun a b => strcmp a.key b.key < 0))
    (hval : ∀ n ∈ x, n.val < 2 ^ 32)
    (hst : _prepare_stats x x.length = some st)
    (hfit : ∀ n ∈ x, n.klen ≤ st.max_len)
    (hal : st.max_len % 4 = 0)
    (hsz : st.mmap_size < 2 ^ 31) :
    ∃ s', _write_mmap cfg s x x.length need_new = some (s', [])
      ∧ _read_mmap s' c = some (x.map (padded_node st.max_len))
      ∧ ∀ n ∈ x, cstr (zero_pad st.max_len n.key) = cstr n.key := by
  have h4 := align4_of_dvd st.max_len hal
  have hsize := stats_size_all_add x st hadd hst
  have hlen : 0 < x.length := List.length_pos.2 hne
  have hpos : st.mmap_size ≠ 0 := by
    rw [hsize]
    exact Nat.ne_of_gt (Nat.mul_pos (by omega) hlen)
  have hle1 : x.length ≤ st.mmap_size := by
    rw [hsize]
    exact Nat.le_mul_of_pos_left _ (by omega)
  have hle2 : st.max_len ≤ st.mmap_size := by
    rw [hsize]
    exact Nat.le_trans (by omega) (Nat.le_mul_of_pos_right (st.max_len + 4) hlen)
  have hbuf : List.replicate st.mmap_size 0
      = [] ++ List.replicate (x.length * (st.max_len + 4)) (0 : Nat) := by
    rw [hsize, Nat.mul_comm]
    rfl
  obtain ⟨last', hl, hloop⟩ := write_loop_all_add st.max_len h4 x
    (fun n hn => ⟨hadd n hn, hfit n hn⟩) [] 0 x.length x.head? (by simp)
  have hsome : last'.isSome = true := hl (Or.inl hne)
  obtain ⟨last, hlast⟩ := Option.isSome_iff_exists.1 hsome
  subst hlast
  have hw : _write_mmap cfg s x x.length need_new
      = some ({ s with
                meta := if need_new then
                    meta_set s.meta ⟨s.name, zero_pad cfg.NESSDB_MAX_KEY_SIZE last.key, x.length, 0⟩
                  else
                    meta_set_byname s.meta
                      ⟨s.name, zero_pad cfg.NESSDB_MAX_KEY_SIZE last.key, x.length, 0⟩
                disk := disk_write s.disk s.name
                  ⟨[] ++ (x.map (block_of st.max_len)).flatten,
                    ⟨zero_pad cfg.NESSDB_MAX_KEY_SIZE last.key, to_be32 x.length, to_be32 F_CRC,
                      to_be32 st.mmap_size, to_be32 st.max_len, to_be32 st.max_lcp⟩⟩ }, []) := by
    unfold _write_mmap
    simp only [hst]
    rw [if_neg hpos, hbuf, hloop]
  refine ⟨_, hw, ?_, fun n hn => cstr_zero_pad _ _ (hfit n hn)⟩
  unfold _read_mmap
  simp only [disk_open_write_self]
  rw [from_be32_to_be32, from_be32_to_be32, from_be32_to_be32,
    Nat.mod_eq_of_lt (by omega : x.length < 2 ^ 32),
    Nat.mod_eq_of_lt (by omega : st.mmap_size < 2 ^ 32),
    Nat.mod_eq_of_lt (by omega : st.max_len < 2 ^ 32)]
  rw [if_neg hpos]
  have hp : ([] ++ (x.map (block_of st.max_len)).flatten).length ≤ page_round st.mmap_size := by
    rw [List.nil_append, blocks_length, hsize, Nat.mul_comm]
    exact le_page_round _
  rw [read_loop_blocks st.max_len h4 _ st.mmap_size hp x hval [] 0 [] rfl (by simp)]
  rw [insert_all_append st.max_len x [] (by simp)]
  · simp
  · refine List.Pairwise.imp_of_mem ?_ hasc
    intro a b ha hb hab
    rw [strcmp_zero_pad _ _ _ (hfit a ha) (hfit b hb)]
    exact Int.le_of_lt hab

/-- C18 (amended): for a strictly ascending, non-empty list of ADD records with
values below 2^32, whose keys are no longer than the `max_len` of the stats
pass, with `max_len` a multiple of four (so that the blocks of
`struct inner_block` fill the block area exactly) and a block area below 2^31
bytes, `_write_mmap` over the whole list completes, and `_read_mmap` on the
file it wrote returns the records in the same order, each with its key
zero-padded to `max_len` (the same C string, with key length `max_len`), its
value and op ADD. -/
theorem C18_scan_returns_padded_records (cfg : config) (s : sst) (x : List skipnode)
    (need_new : Bool) (c : Nat) (st : stats) (hne : x ≠ [])
    (hadd : ∀ n ∈ x, n.opt = OPT.ADD)
    (hasc : x.Pairwise (fun a b => strcmp a.key b.key < 0))
    (hval : ∀ n ∈ x, n.val < 2 ^ 32)
    (hst : _prepare_stats x x.length = some st)
    (hfit : ∀ n ∈ x, n.klen ≤ st.max_len)
    (hal : st.max_len % 4 = 0)
    (hsz : st.mmap_size < 2 ^ 31) :
    ∃ s', _write_mmap cfg s x x.length need_new = some (s', [])
      ∧ _read_mmap s' c = some (x.map (padded_node st.max_len))
      ∧ ∀ n ∈ x, cstr (zero_pad st.max_len n.key) = cstr n.key :=
  write_then_read cfg s x need_new c st hne hadd hasc hval hst hfit hal hsz

set_option maxRecDepth 100000 in
/-- C18 (amended) at the list ADD "ab" → 1, ADD "abcd" → 2, for which the stats
pass gives `max_len = 4` and a block area of 16 bytes. -/
theorem C18_scan_returns_padded_records_witness :
    batch_c18 ≠ []
      ∧ (∀ n ∈ batch_c18, n.opt = OPT.ADD)
      ∧ batch_c18.Pairwise (fun a b => strcmp a.key b.key < 0)
      ∧ (∀ n ∈ batch_c18, n.val < 2 ^ 32)
      ∧ _prepare_stats batch_c18 batch_c18.length = some ⟨16, 4, 0⟩
      ∧ (∀ n ∈ batch_c18, n.klen ≤ 4)
      ∧ 4 % 4 = 0
      ∧ 16 < 2 ^ 31
      ∧ ∃ s', _write_mmap cfg4 { empty_sst with name := "0.sst" } batch_c18 batch_c18.length true
            = some (s', [])
          ∧ _read_mmap s' 0 = some (batch_c18.map (padded_node 4))
          ∧ ∀ n ∈ batch_c18, cstr (zero_pad 4 n.key) = cstr n.key :=
  ⟨by decide, by decide, by decide, by decide, by decide, by decide, by decide, by decide,
    C18_scan_returns_padded_records cfg4 { empty_sst with name := "0.sst" } batch_c18 true 0
      ⟨16, 4, 0⟩ (by decide) (by decide) (by decide) (by decide) (by decide) (by decide)
      (by decide) (by decide)⟩

set_option maxRecDepth 100000 in
/-- C18 (as stated, refuted): the list ADD "ab" → 1, ADD "abcd" → 2 is strictly
ascending with values below 2^32; written and scanned again, its first record
comes back with the key `61 62 00 00` of length 4, not with the key "ab" of
length 2 that was written. (For ADD "aaaa", "bbbb", "cccccccc" the last key
comes back as "cccc": there the stats pass has missed the last record. For
ADD "abcde" → 1, ADD "abcdf" → 2 the stats pass gives `max_len = 5` and a block
area of 18 bytes, while the two blocks of `struct inner_block` take 12 bytes
each: the offset field of the second block lies past the area, where the file
holds the footer key, and the scan returns the value 1667524096, the bytes
`63 64 66 00`, for "abcdf".) -/
theorem C18_scan_keeps_the_padding :
    batch_c18.Pairwise (fun a b => strcmp a.key b.key < 0)
      ∧ batch_c18.map (fun n => (n.key, n.val, n.opt))
          = [([97, 98], 1, OPT.ADD), ([97, 98, 99, 100], 2, OPT.ADD)]
      ∧ ((_write_mmap cfg4 { empty_sst with name := "0.sst" } batch_c18 2 true).bind
          (fun r => _read_mmap r.1 0)).map (fun l => l.map (fun n => (n.key, n.val, n.opt)))
          = some [([97, 98, 0, 0], 1, OPT.ADD), ([97, 98, 99, 100], 2, OPT.ADD)]
      ∧ (_write_mmap cfg4 { empty_sst with name := "0.sst" } batch_c18 2 true).bind
          (fun r => _read_mmap r.1 0) ≠ some batch_c18
      ∧ ((_write_mmap cfg4 { empty_sst with name := "0.sst" } batch_c2 3 true).bind
          (fun r => _read_mmap r.1 0)).map (fun l => l.map (fun n => n.key))
          = some [rep_key 4 'a', rep_key 4 'b', rep_key 4 'c']
      ∧ _prepare_stats batch_c18_odd 2 = some ⟨18, 5, 0⟩
      ∧ ((_write_mmap cfg4 { empty_sst with name := "0.sst" } batch_c18_odd 2 true).bind
          (fun r => _read_mmap r.1 0)).map (fun l => l.map (fun n => (n.key, n.val, n.opt)))
          = some [([97, 98, 99, 100, 101], 1, OPT.ADD),
                  ([97, 98, 99, 100, 102], 1667524096, OPT.ADD)] := by
  decide

end NessDB
